import Mathlib

/-!
# Verification of the live-chatter hub (`pkg/client_manager.go`, `pkg/client.go`)

Shallow embedding of the WebSocket hub of the live-chatter backend.

Modelling conventions:
* Go `*Client` pointers are modelled as `Nat` identifiers; the mutable
  `Client` structs live on an explicit heap (`ClientManager.heap`,
  an association list from identifier to `Client`).
* Go maps (`Clients`, `UserClients`, `Rooms`, `Client.Rooms`) are modelled
  as association lists / lists used as finite sets.  Iteration order of a
  Go map is nondeterministic; the list order is one admissible order, and
  every property proved below is insensitive to it.
* A `chan []byte` with capacity is a `SendChan`: a list of buffered
  messages, a capacity, and a closed flag.  A non-blocking
  select with a send case and a default case enqueues when there is room,
  falls through to the default when full, and panics when the channel is
  closed (a send on a closed channel is always ready and panics).
  `close` of a closed channel also panics.  Panics are modelled by
  returning `none`: every hub operation returns an `Option`.
* `json.Marshal` of a `Message` cannot fail on the values the hub builds,
  so a delivered payload is the `Message` itself.  The wall-clock `ID` and
  `Timestamp` fields of `Message` are environment-supplied and play no
  role in any routing decision; they are omitted from the embedding.
* Besides the new state, delivery operations also return the list of
  client identifiers to which a delivery was attempted (the targets of the
  non-blocking send).  This ghost output does not influence the state.
-/

namespace LiveChatter

/-! ## Association-list maps (the embedding of Go maps) -/

/-- Lookup in an association list: the value of the first matching key. -/
def alookup {α β : Type} [DecidableEq α] : List (α × β) → α → Option β
  | [], _ => none
  | (k, v) :: rest, a => if k = a then some v else alookup rest a

/-- Go map assignment `m[k] = v`: replace the first binding of `k`,
or append a new binding. -/
def aset {α β : Type} [DecidableEq α] : List (α × β) → α → β → List (α × β)
  | [], a, b => [(a, b)]
  | (k, v) :: rest, a, b =>
    if k = a then (k, b) :: rest else (k, v) :: aset rest a b

/-- Go `delete(m, k)`: remove the first binding of `k` (the only one,
for the maps we build). -/
def aerase {α β : Type} [DecidableEq α] : List (α × β) → α → List (α × β)
  | [], _ => []
  | (k, v) :: rest, a => if k = a then rest else (k, v) :: aerase rest a

/-- The keys of an association list. -/
def akeys {α β : Type} (l : List (α × β)) : List α := l.map Prod.fst

/-- Go set insertion `m[k] = true` on a map used as a set. -/
def insertSet {α : Type} [DecidableEq α] (l : List α) (a : α) : List α :=
  if a ∈ l then l else l ++ [a]

theorem alookup_nil {α β : Type} [DecidableEq α] (a : α) :
    alookup ([] : List (α × β)) a = none := rfl

theorem alookup_cons_self {α β : Type} [DecidableEq α] (k : α) (v : β) (rest : List (α × β)) :
    alookup ((k, v) :: rest) k = some v := by simp [alookup]

theorem alookup_cons_ne {α β : Type} [DecidableEq α] {pk k : α} (pv : β) (rest : List (α × β))
    (h : pk ≠ k) : alookup ((pk, pv) :: rest) k = alookup rest k := by simp [alookup, h]

theorem aset_cons_self {α β : Type} [DecidableEq α] (k : α) (v w : β) (rest : List (α × β)) :
    aset ((k, v) :: rest) k w = (k, w) :: rest := by simp [aset]

theorem aset_cons_ne {α β : Type} [DecidableEq α] {pk k : α} (pv w : β) (rest : List (α × β))
    (h : pk ≠ k) : aset ((pk, pv) :: rest) k w = (pk, pv) :: aset rest k w := by simp [aset, h]

theorem aerase_cons_self {α β : Type} [DecidableEq α] (k : α) (v : β) (rest : List (α × β)) :
    aerase ((k, v) :: rest) k = rest := by simp [aerase]

theorem aerase_cons_ne {α β : Type} [DecidableEq α] {pk k : α} (pv : β) (rest : List (α × β))
    (h : pk ≠ k) : aerase ((pk, pv) :: rest) k = (pk, pv) :: aerase rest k := by
  simp [aerase, h]

theorem akeys_cons {α β : Type} (p : α × β) (rest : List (α × β)) :
    akeys (p :: rest) = p.1 :: akeys rest := rfl

theorem alookup_aset {α β : Type} [DecidableEq α] (l : List (α × β)) (k : α) (v : β) (x : α) :
    alookup (aset l k v) x = if x = k then some v else alookup l x := by
  induction l with
  | nil =>
    by_cases h : x = k
    · subst h; simp [aset, alookup]
    · have h2 : ¬k = x := fun hh => h hh.symm
      simp [aset, alookup, h, h2]
  | cons p rest ih =>
    obtain ⟨pk, pv⟩ := p
    by_cases h1 : pk = k
    · subst h1
      by_cases h2 : x = pk
      · subst h2; simp [aset_cons_self, alookup_cons_self]
      · have h3 : ¬pk = x := fun hh => h2 hh.symm
        rw [aset_cons_self, alookup_cons_ne _ _ h3, alookup_cons_ne _ _ h3, if_neg h2]
    · by_cases h2 : x = pk
      · subst h2
        rw [aset_cons_ne _ _ _ h1, alookup_cons_self, alookup_cons_self,
          if_neg (fun hh : x = k => h1 hh)]
      · have h3 : ¬pk = x := fun hh => h2 hh.symm
        rw [aset_cons_ne _ _ _ h1, alookup_cons_ne _ _ h3, alookup_cons_ne _ _ h3, ih]

theorem alookup_isSome_mem_akeys {α β : Type} [DecidableEq α] {l : List (α × β)} {k : α} :
    (alookup l k).isSome = true ↔ k ∈ akeys l := by
  induction l with
  | nil => simp [alookup, akeys]
  | cons p rest ih =>
    obtain ⟨pk, pv⟩ := p
    by_cases hpk : pk = k
    · subst hpk
      simp [alookup_cons_self, akeys_cons]
    · have h2 : ¬k = pk := fun hh => hpk hh.symm
      rw [alookup_cons_ne _ _ hpk, akeys_cons]
      simp only [List.mem_cons]
      constructor
      · intro hh; exact Or.inr (ih.mp hh)
      · rintro (hh | hh)
        · exact absurd hh h2
        · exact ih.mpr hh

theorem alookup_none_of_not_mem_akeys {α β : Type} [DecidableEq α] {l : List (α × β)} {k : α}
    (h : k ∉ akeys l) : alookup l k = none := by
  cases hl : alookup l k with
  | none => rfl
  | some v =>
    exact absurd (alookup_isSome_mem_akeys.mp (by simp [hl])) h

theorem alookup_aerase {α β : Type} [DecidableEq α] (l : List (α × β)) (k : α) (x : α)
    (h : (akeys l).Nodup) :
    alookup (aerase l k) x = if x = k then none else alookup l x := by
  induction l with
  | nil => by_cases hx : x = k <;> simp [aerase, alookup, hx]
  | cons p rest ih =>
    obtain ⟨pk, pv⟩ := p
    rw [akeys_cons] at h
    simp only [List.nodup_cons] at h
    by_cases h1 : pk = k
    · subst h1
      by_cases h2 : x = pk
      · subst h2
        rw [aerase_cons_self, if_pos rfl]
        exact alookup_none_of_not_mem_akeys h.1
      · have h3 : ¬pk = x := fun hh => h2 hh.symm
        rw [aerase_cons_self, alookup_cons_ne _ _ h3, if_neg h2]
    · by_cases h2 : x = pk
      · subst h2
        rw [aerase_cons_ne _ _ h1, alookup_cons_self, alookup_cons_self,
          if_neg (fun hh : x = k => h1 hh)]
      · have h3 : ¬pk = x := fun hh => h2 hh.symm
        rw [aerase_cons_ne _ _ h1, alookup_cons_ne _ _ h3, alookup_cons_ne _ _ h3, ih h.2]

theorem alookup_mem {α β : Type} [DecidableEq α] {l : List (α × β)} {k : α} {v : β}
    (h : alookup l k = some v) : (k, v) ∈ l := by
  induction l with
  | nil => simp [alookup] at h
  | cons p rest ih =>
    obtain ⟨pk, pv⟩ := p
    by_cases hpk : pk = k
    · subst hpk
      rw [alookup_cons_self] at h
      cases h
      exact List.mem_cons_self _ _
    · rw [alookup_cons_ne _ _ hpk] at h
      exact List.mem_cons_of_mem _ (ih h)

theorem akeys_aset_of_mem {α β : Type} [DecidableEq α] {l : List (α × β)} {k : α} (v : β)
    (h : k ∈ akeys l) : akeys (aset l k v) = akeys l := by
  induction l with
  | nil => simp [akeys] at h
  | cons p rest ih =>
    obtain ⟨pk, pv⟩ := p
    by_cases hpk : pk = k
    · subst hpk
      rw [aset_cons_self, akeys_cons, akeys_cons]
    · rw [akeys_cons] at h
      simp only [List.mem_cons] at h
      rcases h with h | h
      · exact absurd h.symm hpk
      · rw [aset_cons_ne _ _ _ hpk, akeys_cons, akeys_cons, ih h]

theorem akeys_aset_of_not_mem {α β : Type} [DecidableEq α] {l : List (α × β)} {k : α} (v : β)
    (h : k ∉ akeys l) : akeys (aset l k v) = akeys l ++ [k] := by
  induction l with
  | nil => simp [aset, akeys]
  | cons p rest ih =>
    obtain ⟨pk, pv⟩ := p
    rw [akeys_cons] at h
    simp only [List.mem_cons] at h
    push_neg at h
    have h1 : pk ≠ k := fun hh => h.1 hh.symm
    rw [aset_cons_ne _ _ _ h1, akeys_cons, akeys_cons, ih h.2, List.cons_append]

theorem nodup_akeys_aset {α β : Type} [DecidableEq α] {l : List (α × β)} {k : α} (v : β)
    (h : (akeys l).Nodup) : (akeys (aset l k v)).Nodup := by
  by_cases hk : k ∈ akeys l
  · rw [akeys_aset_of_mem v hk]; exact h
  · rw [akeys_aset_of_not_mem v hk]
    simp [List.nodup_append, hk, h]

theorem aerase_sublist {α β : Type} [DecidableEq α] (l : List (α × β)) (k : α) :
    (aerase l k).Sublist l := by
  induction l with
  | nil => simp [aerase]
  | cons p rest ih =>
    obtain ⟨pk, pv⟩ := p
    by_cases hpk : pk = k
    · subst hpk
      rw [aerase_cons_self]
      exact List.sublist_cons_self _ _
    · rw [aerase_cons_ne _ _ hpk]
      exact List.Sublist.cons₂ (pk, pv) ih

theorem akeys_aerase_sublist {α β : Type} [DecidableEq α] (l : List (α × β)) (k : α) :
    (akeys (aerase l k)).Sublist (akeys l) :=
  List.Sublist.map Prod.fst (aerase_sublist l k)

theorem nodup_akeys_aerase {α β : Type} [DecidableEq α] {l : List (α × β)} (k : α)
    (h : (akeys l).Nodup) : (akeys (aerase l k)).Nodup :=
  List.Sublist.nodup (akeys_aerase_sublist l k) h

theorem mem_of_mem_aerase {α β : Type} [DecidableEq α] {l : List (α × β)} {k : α}
    {p : α × β} (h : p ∈ aerase l k) : p ∈ l :=
  List.Sublist.mem h (aerase_sublist l k)

theorem mem_aset {α β : Type} [DecidableEq α] {l : List (α × β)} {k : α} {v : β}
    {p : α × β} (h : p ∈ aset l k v) : p = (k, v) ∨ p ∈ l := by
  induction l with
  | nil => simpa [aset] using h
  | cons q rest ih =>
    obtain ⟨qk, qv⟩ := q
    by_cases hq : qk = k
    · subst hq
      rw [aset_cons_self] at h
      simp only [List.mem_cons] at h
      rcases h with h | h
      · exact Or.inl h
      · exact Or.inr (List.mem_cons_of_mem _ h)
    · rw [aset_cons_ne _ _ _ hq] at h
      simp only [List.mem_cons] at h
      rcases h with h | h
      · exact Or.inr (by simp [h])
      · rcases ih h with h | h
        · exact Or.inl h
        · exact Or.inr (List.mem_cons_of_mem _ h)

theorem mem_insertSet {α : Type} [DecidableEq α] {l : List α} {a x : α} :
    x ∈ insertSet l a ↔ x = a ∨ x ∈ l := by
  by_cases h : a ∈ l
  · simp only [insertSet, if_pos h]
    constructor
    · exact Or.inr
    · rintro (rfl | hx)
      · exact h
      · exact hx
  · simp [insertSet, if_neg h, or_comm]

theorem nodup_insertSet {α : Type} [DecidableEq α] {l : List α} (a : α)
    (hnd : l.Nodup) : (insertSet l a).Nodup := by
  by_cases ha : a ∈ l
  · simpa [insertSet, ha] using hnd
  · simp [insertSet, ha, List.nodup_append, hnd]

/-! ## Data model (`pkg/message.go`, `pkg/model`, `pkg/client.go`) -/

/-- `pkg.Message` (outbound wire notification).  The wall-clock `ID` and
`Timestamp` fields are generated from the environment and never inspected
by the hub, so they are omitted.  `Data` is only ever the online-users
payload, represented by `dataUsers` (`none` when the field is absent). -/
structure Message where
  mtype : String := ""
  content : String := ""
  userId : Nat := 0
  username : String := ""
  roomId : String := ""
  recipient : String := ""
  dataUsers : Option (List String) := none
deriving DecidableEq

/-- `pkg.BroadcastMessage`: an internal routing instruction. -/
structure BroadcastMessage where
  message : Message
  roomId : String := ""
  targetUsername : String := ""
  excludeUser : String := ""
  messageType : String
deriving DecidableEq

/-- A buffered `chan []byte`: buffered contents, capacity, closed flag. -/
structure SendChan where
  msgs : List Message
  cap : Nat
  closed : Bool
deriving DecidableEq

/-- `model.User` (the fields the hub reads). -/
structure UserRec where
  id : Nat
  username : String
deriving DecidableEq

/-- `pkg.Client`: one WebSocket connection.  `Rooms` is the key set of the
Go map `Client.Rooms`; `socketOpen` tracks whether `Client.Socket` has been
closed. -/
structure Client where
  user : UserRec
  rooms : List String
  send : SendChan
  socketOpen : Bool
deriving DecidableEq

/-- `pkg.ClientManager`.  `Clients` is the key set of the Go map
`map[*Client]bool`; `UserClients` and `Rooms` are the Go maps; `heap` holds
the `Client` structs the `*Client` identifiers point to (it only grows:
an unregistered client's struct still exists on the Go heap). -/
structure ClientManager where
  Clients : List Nat
  UserClients : List (String × Nat)
  Rooms : List (String × List Nat)
  heap : List (Nat × Client)
deriving DecidableEq

/-! ## Channel primitives (Go semantics of the operations the code uses) -/

/-- Non-blocking send, i.e. `select` with a send case and a `default` case:
panic (`none`) if the channel is closed, enqueue (`some (ch, true)`) if
there is room, take the default branch (`some (ch, false)`) if full. -/
def chanTrySend (ch : SendChan) (msg : Message) : Option (SendChan × Bool) :=
  if ch.closed then none
  else if ch.msgs.length < ch.cap then
    some ({ ch with msgs := ch.msgs ++ [msg] }, true)
  else some (ch, false)

/-- `close(ch)`: panic (`none`) if already closed. -/
def chanClose (ch : SendChan) : Option SendChan :=
  if ch.closed then none else some { ch with closed := true }

/-- Replace the heap cell of client `cid` (a mutation through a pointer). -/
def heapSet (m : ClientManager) (cid : Nat) (c : Client) : ClientManager :=
  { m with heap := aset m.heap cid c }

/-! ## Derived views of the state -/

/-- The member set of room `r` (empty if there is no such room). -/
def membersOf (m : ClientManager) (r : String) : List Nat :=
  (alookup m.Rooms r).getD []

/-- The room set of the client struct `cid` points to. -/
def roomsOf (m : ClientManager) (cid : Nat) : List String :=
  ((alookup m.heap cid).map Client.rooms).getD []

/-- The username of the client struct `cid` points to, if any. -/
def usernameOf (m : ClientManager) (cid : Nat) : Option String :=
  (alookup m.heap cid).map (fun c => c.user.username)

/-- `GetOnlineUsers`: the key set of `UserClients`, computed live. -/
def GetOnlineUsers (m : ClientManager) : List String :=
  akeys m.UserClients

/-! ## Notifications the hub synthesizes (`client_manager.go`, `client.go`) -/

/-- The welcome notification sent to a freshly registered client. -/
def welcomeMsg : Message :=
  { mtype := "system", content := "Welcome to Chatter! You are now connected.",
    username := "System" }

/-- The `user_connected` notification broadcast on registration. -/
def userConnectedMsg (u : UserRec) : Message :=
  { mtype := "user_connected", content := u.username ++ " joined the chat",
    userId := u.id, username := u.username }

/-- The `user_disconnected` notification broadcast on unregistration. -/
def userDisconnectedMsg (u : UserRec) : Message :=
  { mtype := "user_disconnected", content := u.username ++ " left the chat",
    userId := u.id, username := u.username }

/-- The error sent back for a private message to an offline user. -/
def offlineErrorMsg (target : String) : Message :=
  { mtype := "error", content := "User " ++ target ++ " is not online",
    username := "System" }

/-- The `room_joined` confirmation. -/
def roomJoinedMsg (roomID : String) : Message :=
  { mtype := "room_joined", content := "Successfully joined room",
    roomId := roomID, username := "System" }

/-- The `room_left` confirmation. -/
def roomLeftMsg (roomID : String) : Message :=
  { mtype := "room_left", content := "Successfully left room",
    roomId := roomID, username := "System" }

/-- The `user_joined` room notification. -/
def userJoinedMsg (u : UserRec) (roomID : String) : Message :=
  { mtype := "user_joined", content := u.username ++ " joined the room",
    userId := u.id, username := u.username, roomId := roomID }

/-- The `user_left` room notification. -/
def userLeftMsg (u : UserRec) (roomID : String) : Message :=
  { mtype := "user_left", content := u.username ++ " left the room",
    userId := u.id, username := u.username, roomId := roomID }

/-- The `pong` reply. -/
def pongMsg : Message := { mtype := "pong", username := "System" }

/-- The `online_users` snapshot for `cid`, built live from `UserClients`
exactly as `sendOnlineUsersList` does. -/
def onlineUsersMsg (m : ClientManager) (own : String) : Message :=
  { mtype := "online_users", content := "", username := "System",
    dataUsers := some ((akeys m.UserClients).filter (fun u => u ≠ own)) }

/-! ## `Client.SendMessage` and `Client.SendError` (`client.go`) -/

/-- `Client.SendMessage`: non-blocking enqueue onto the client's own `Send`
channel; on a full channel the client CLOSES its own channel (without
unregistering itself); on a closed channel the attempted send panics. -/
def SendMessage (m : ClientManager) (cid : Nat) (msg : Message) : Option ClientManager :=
  match alookup m.heap cid with
  | none => some m
  | some c =>
    match chanTrySend c.send msg with
    | none => none
    | some (ch, true) => some (heapSet m cid { c with send := ch })
    | some (_, false) =>
      match chanClose c.send with
      | none => none
      | some ch => some (heapSet m cid { c with send := ch })

/-- `Client.SendError`. -/
def SendError (m : ClientManager) (cid : Nat) (content : String) : Option ClientManager :=
  SendMessage m cid { mtype := "error", content := content, username := "System" }

/-! ## The hub (`client_manager.go`) -/

/-- The shared room-removal loop of `unregisterClient` and `cleanupClient`:
for every room id in the departing client's own room set, delete the client
from that room's member set and prune the room if it became empty. -/
def removeFromRooms (rooms : List (String × List Nat)) (cid : Nat)
    (crooms : List String) : List (String × List Nat) :=
  crooms.foldl
    (fun rms roomID =>
      match alookup rms roomID with
      | none => rms
      | some members =>
        let members := members.erase cid
        if members.length = 0 then aerase rms roomID
        else aset rms roomID members)
    rooms

/-- `cleanupClient`: close the channel (panic if it is already closed),
then remove the client from `Clients`, `UserClients` and every room it
belongs to.  Sends NO notification. -/
def cleanupClient (m : ClientManager) (cid : Nat) : Option ClientManager :=
  match alookup m.heap cid with
  | none => none
  | some c =>
    match chanClose c.send with
    | none => none
    | some ch =>
      some { Clients := m.Clients.erase cid,
             UserClients := aerase m.UserClients c.user.username,
             Rooms := removeFromRooms m.Rooms cid c.rooms,
             heap := aset m.heap cid { c with send := ch } }

/-- One iteration of the delivery loop of `broadcastToAll` /
`broadcastToRoom`: skip excluded usernames, non-blocking send, clean up the
target when its channel is full.  The accumulator collects the clients a
delivery was attempted to. -/
def deliverStep (m : ClientManager) (cid : Nat) (msg : Message) (exclude : String)
    (acc : List Nat) : Option (ClientManager × List Nat) :=
  match alookup m.heap cid with
  | none => some (m, acc)
  | some c =>
    if c.user.username = exclude then some (m, acc)
    else
      match chanTrySend c.send msg with
      | none => none
      | some (ch, true) => some (heapSet m cid { c with send := ch }, acc ++ [cid])
      | some (_, false) => (cleanupClient m cid).map (fun m2 => (m2, acc ++ [cid]))

/-- The delivery loop over a snapshot of targets.  (Go iterates the map;
during the loop only the currently visited client is ever deleted, so
iterating a pre-loop snapshot is faithful.) -/
def broadcastLoop (m : ClientManager) (snapshot : List Nat) (msg : Message)
    (exclude : String) (acc : List Nat) : Option (ClientManager × List Nat) :=
  match snapshot with
  | [] => some (m, acc)
  | c :: rest =>
    match deliverStep m c msg exclude acc with
    | none => none
    | some (m2, acc2) => broadcastLoop m2 rest msg exclude acc2

/-- `broadcastToAll`: deliver to every connected client whose username is
not the excluded one. -/
def broadcastToAll (m : ClientManager) (msg : Message) (exclude : String) :
    Option (ClientManager × List Nat) :=
  broadcastLoop m m.Clients msg exclude []

/-- `broadcastToRoom`: an empty room id degrades to `broadcastToAll`; an
unknown room id is a logged no-op; otherwise deliver to the room members. -/
def broadcastToRoom (m : ClientManager) (msg : Message) (roomID : String)
    (exclude : String) : Option (ClientManager × List Nat) :=
  if roomID = "" then broadcastToAll m msg exclude
  else
    match alookup m.Rooms roomID with
    | none => some (m, [])
    | some roomClients => broadcastLoop m roomClients msg exclude []

/-- `sendPrivateMessage`: deliver to the single connection of the target
username; if the target is offline, synthesize an `error` back to the
sender (via the sender's own `SendMessage`), or drop everything if the
sender is gone too. -/
def sendPrivateMessage (m : ClientManager) (msg : Message) (target : String) :
    Option (ClientManager × List Nat) :=
  match alookup m.UserClients target with
  | none =>
    match alookup m.UserClients msg.username with
    | some senderCid =>
      (SendMessage m senderCid (offlineErrorMsg target)).map (fun m2 => (m2, []))
    | none => some (m, [])
  | some targetCid =>
    match alookup m.heap targetCid with
    | none => some (m, [])
    | some c =>
      match chanTrySend c.send msg with
      | none => none
      | some (ch, true) => some (heapSet m targetCid { c with send := ch }, [targetCid])
      | some (_, false) => (cleanupClient m targetCid).map (fun m2 => (m2, [targetCid]))

/-- `unregisterClient`: a no-op if the client is not registered; otherwise
close its channel, remove it from `Clients`, `UserClients` and every room
in its own room set (pruning emptied rooms), then broadcast
`user_disconnected` to the remaining clients. -/
def unregisterClient (m : ClientManager) (cid : Nat) : Option (ClientManager × List Nat) :=
  if cid ∈ m.Clients then
    match alookup m.heap cid with
    | none => some (m, [])
    | some c =>
      match chanClose c.send with
      | none => none
      | some ch =>
        broadcastToAll
          { Clients := m.Clients.erase cid,
            UserClients := aerase m.UserClients c.user.username,
            Rooms := removeFromRooms m.Rooms cid c.rooms,
            heap := aset m.heap cid { c with send := ch } }
          (userDisconnectedMsg c.user) c.user.username
  else some (m, [])

/-- `forceDisconnectClient`: close the transport, then unregister. -/
def forceDisconnectClient (m : ClientManager) (cid : Nat) :
    Option (ClientManager × List Nat) :=
  match alookup m.heap cid with
  | none => unregisterClient m cid
  | some c => unregisterClient (heapSet m cid { c with socketOpen := false }) cid

/-- `sendOnlineUsersList`: send the live online-users snapshot to `cid`. -/
def sendOnlineUsersList (m : ClientManager) (cid : Nat) : Option ClientManager :=
  match alookup m.heap cid with
  | none => some m
  | some c => SendMessage m cid (onlineUsersMsg m c.user.username)

/-- The second half of `registerClient`, after the duplicate-login
eviction: add the client to `Clients` and `UserClients`, send it the
welcome message, broadcast `user_connected` to everyone else, and send the
new client the online-users snapshot. -/
def registerTail (m1 : ClientManager) (cid : Nat) (u : UserRec) :
    Option (ClientManager × List Nat) :=
  match SendMessage { m1 with Clients := insertSet m1.Clients cid,
                              UserClients := aset m1.UserClients u.username cid }
      cid welcomeMsg with
  | none => none
  | some m3 =>
    match broadcastToAll m3 (userConnectedMsg u) u.username with
    | none => none
    | some (m4, att) => (sendOnlineUsersList m4 cid).map (fun m5 => (m5, att))

/-- `registerClient`: force-evict any live connection with the same
username, then run `registerTail`.  The client struct is assumed to be on
the heap already (it was allocated by the WebSocket handler). -/
def registerClient (m : ClientManager) (cid : Nat) : Option (ClientManager × List Nat) :=
  match alookup m.heap cid with
  | none => some (m, [])
  | some c =>
    match (match alookup m.UserClients c.user.username with
           | some existing => (forceDisconnectClient m existing).map Prod.fst
           | none => some m) with
    | none => none
    | some m1 => registerTail m1 cid c.user

/-- `handleBroadcast`: route a `BroadcastMessage` by `MessageType`;
an unknown type is a logged no-op. -/
def handleBroadcast (m : ClientManager) (b : BroadcastMessage) :
    Option (ClientManager × List Nat) :=
  if b.messageType = "broadcast_all" then broadcastToAll m b.message b.excludeUser
  else if b.messageType = "broadcast_room" then
    broadcastToRoom m b.message b.roomId b.excludeUser
  else if b.messageType = "private_message" then
    sendPrivateMessage m b.message b.targetUsername
  else some (m, [])

/-! ## The room handlers of the connection actor (`client.go`) -/

/-- `handleJoinRoom`: reject an empty room id with a local error; otherwise
add the client to the room's member set and to its own room set, confirm
with `room_joined`, and emit a `broadcast_room` dispatch notifying the
other members. -/
def handleJoinRoom (m : ClientManager) (cid : Nat) (roomID : String) :
    Option (ClientManager × List BroadcastMessage) :=
  match alookup m.heap cid with
  | none => some (m, [])
  | some c =>
    if roomID = "" then
      (SendError m cid "Room ID cannot be empty").map (fun m2 => (m2, []))
    else
      let m1 : ClientManager :=
        { m with Rooms := aset m.Rooms roomID (insertSet (membersOf m roomID) cid) }
      let m2 := heapSet m1 cid { c with rooms := insertSet c.rooms roomID }
      match SendMessage m2 cid (roomJoinedMsg roomID) with
      | none => none
      | some m3 =>
        some (m3, [{ message := userJoinedMsg c.user roomID, roomId := roomID,
                     excludeUser := c.user.username, messageType := "broadcast_room" }])

/-- `handleLeaveRoom`: reject an empty room id with a local error; otherwise
remove the client from the room's member set (pruning the room if emptied)
and from its own room set, confirm with `room_left`, and emit a
`broadcast_room` dispatch if the room still has members. -/
def handleLeaveRoom (m : ClientManager) (cid : Nat) (roomID : String) :
    Option (ClientManager × List BroadcastMessage) :=
  match alookup m.heap cid with
  | none => some (m, [])
  | some c =>
    if roomID = "" then
      (SendError m cid "Room ID cannot be empty").map (fun m2 => (m2, []))
    else
      let m1 : ClientManager :=
        { m with Rooms :=
            match alookup m.Rooms roomID with
            | none => m.Rooms
            | some members =>
              let members := members.erase cid
              if members.length = 0 then aerase m.Rooms roomID
              else aset m.Rooms roomID members }
      let m2 := heapSet m1 cid { c with rooms := c.rooms.erase roomID }
      match SendMessage m2 cid (roomLeftMsg roomID) with
      | none => none
      | some m3 =>
        let ds : List BroadcastMessage :=
          match alookup m3.Rooms roomID with
          | some members =>
            if members.length > 0 then
              [{ message := userLeftMsg c.user roomID, roomId := roomID,
                 excludeUser := c.user.username, messageType := "broadcast_room" }]
            else []
          | none => []
        some (m3, ds)

/-- `handlePing`: reply `pong` locally through `SendMessage`. -/
def handlePing (m : ClientManager) (cid : Nat) : Option ClientManager :=
  SendMessage m cid pongMsg

/-! ## Hub command sequences -/

/-- A fresh `Client` as allocated by the WebSocket handler
(`server` package): empty room set, open channel of capacity 256. -/
def newClient (uid : Nat) (uname : String) : Client :=
  { user := { id := uid, username := uname }, rooms := [],
    send := { msgs := [], cap := 256, closed := false }, socketOpen := true }

/-- The register/unregister command language of the hub loop. -/
inductive HubCmd where
  | register (cid : Nat) (uid : Nat) (uname : String)
  | unregister (cid : Nat)
deriving DecidableEq

/-- Apply one hub command.  A `register` allocates a fresh `*Client`
(modelled by requiring the identifier to be unused on the heap) and runs
`registerClient`. -/
def applyCmd (m : ClientManager) : HubCmd → Option ClientManager
  | .register cid uid uname =>
    if (alookup m.heap cid).isSome then none
    else (registerClient (heapSet m cid (newClient uid uname)) cid).map Prod.fst
  | .unregister cid => (unregisterClient m cid).map Prod.fst

/-- Run a sequence of hub commands. -/
def runCmds (m : ClientManager) : List HubCmd → Option ClientManager
  | [] => some m
  | c :: cs => (applyCmd m c).bind (fun m2 => runCmds m2 cs)

/-- The empty hub, as built in `cmd/chatserver/main.go`. -/
def initManager : ClientManager :=
  { Clients := [], UserClients := [], Rooms := [], heap := [] }

/-- The full operation language (hub commands, room handlers, local ping
replies and dispatches), used to exhibit reachable states. -/
inductive HubOp where
  | register (cid : Nat) (uid : Nat) (uname : String)
  | unregister (cid : Nat)
  | joinRoom (cid : Nat) (roomID : String)
  | leaveRoom (cid : Nat) (roomID : String)
  | ping (cid : Nat)
  | dispatch (b : BroadcastMessage)
deriving DecidableEq

/-- Apply one operation (ghost outputs dropped). -/
def applyOp (m : ClientManager) : HubOp → Option ClientManager
  | .register cid uid uname => applyCmd m (.register cid uid uname)
  | .unregister cid => applyCmd m (.unregister cid)
  | .joinRoom cid roomID => (handleJoinRoom m cid roomID).map Prod.fst
  | .leaveRoom cid roomID => (handleLeaveRoom m cid roomID).map Prod.fst
  | .ping cid => handlePing m cid
  | .dispatch b => (handleBroadcast m b).map Prod.fst

/-- Run a sequence of operations. -/
def runOps (m : ClientManager) : List HubOp → Option ClientManager
  | [] => some m
  | o :: os => (applyOp m o).bind (fun m2 => runOps m2 os)

/-! ## Basic lemmas about the primitive operations -/

theorem heapSet_lookup (m : ClientManager) (cid : Nat) (c : Client) (x : Nat) :
    alookup (heapSet m cid c).heap x = if x = cid then some c else alookup m.heap x := by
  simp [heapSet, alookup_aset]

theorem usernameOf_heapSet (m : ClientManager) (cid : Nat) (c : Client) (x : Nat) :
    usernameOf (heapSet m cid c) x =
      if x = cid then some c.user.username else usernameOf m x := by
  by_cases hx : x = cid <;> simp [usernameOf, heapSet_lookup, hx]

theorem chanTrySend_closed {ch : SendChan} {msg : Message} (h : ch.closed = true) :
    chanTrySend ch msg = none := by simp [chanTrySend, h]

theorem chanTrySend_enqueue {ch : SendChan} {msg : Message} (h : ch.closed = false)
    (hroom : ch.msgs.length < ch.cap) :
    chanTrySend ch msg = some ({ ch with msgs := ch.msgs ++ [msg] }, true) := by
  simp [chanTrySend, h, hroom]

theorem chanTrySend_full {ch : SendChan} {msg : Message} (h : ch.closed = false)
    (hfull : ¬ ch.msgs.length < ch.cap) :
    chanTrySend ch msg = some (ch, false) := by
  simp [chanTrySend, h, hfull]

theorem chanClose_open {ch : SendChan} (h : ch.closed = false) :
    chanClose ch = some { ch with closed := true } := by simp [chanClose, h]

/-- `SendMessage` on a client with room in its queue: the message is
appended. -/
theorem SendMessage_enqueue {m : ClientManager} {cid : Nat} {c : Client} (msg : Message)
    (hc : alookup m.heap cid = some c) (hopen : c.send.closed = false)
    (hroom : c.send.msgs.length < c.send.cap) :
    SendMessage m cid msg =
      some (heapSet m cid { c with send := { c.send with msgs := c.send.msgs ++ [msg] } }) := by
  simp [SendMessage, hc, chanTrySend_enqueue hopen hroom]

/-- `SendMessage` on a client with a full open queue: the queue is closed,
the registry is untouched. -/
theorem SendMessage_full {m : ClientManager} {cid : Nat} {c : Client} (msg : Message)
    (hc : alookup m.heap cid = some c) (hopen : c.send.closed = false)
    (hfull : ¬ c.send.msgs.length < c.send.cap) :
    SendMessage m cid msg =
      some (heapSet m cid { c with send := { c.send with closed := true } }) := by
  simp [SendMessage, hc, chanTrySend_full hopen hfull, chanClose_open hopen]

/-- `SendMessage` on a client whose queue is already closed panics. -/
theorem SendMessage_closed {m : ClientManager} {cid : Nat} {c : Client} (msg : Message)
    (hc : alookup m.heap cid = some c) (hclosed : c.send.closed = true) :
    SendMessage m cid msg = none := by
  simp [SendMessage, hc, chanTrySend_closed hclosed]

/-- Whatever `SendMessage` does, it only ever rewrites the channel state of
the addressed client: registry and all other heap cells are untouched. -/
theorem SendMessage_frame {m m2 : ClientManager} {cid : Nat} {msg : Message}
    (h : SendMessage m cid msg = some m2) :
    m2.Clients = m.Clients ∧ m2.UserClients = m.UserClients ∧ m2.Rooms = m.Rooms ∧
    (∀ x, x ≠ cid → alookup m2.heap x = alookup m.heap x) ∧
    (∀ x, usernameOf m2 x = usernameOf m x) ∧
    (∀ x, roomsOf m2 x = roomsOf m x) ∧
    (∀ x, (alookup m2.heap x).isSome = (alookup m.heap x).isSome) ∧
    (∀ x c, alookup m.heap x = some c → ∃ ch, alookup m2.heap x = some { c with send := ch }) := by
  cases hc : alookup m.heap cid with
  | none =>
    simp only [SendMessage, hc] at h
    cases h
    refine ⟨rfl, rfl, rfl, fun x _ => rfl, fun x => rfl, fun x => rfl, fun x => rfl, ?_⟩
    intro x cl hcl
    exact ⟨cl.send, by simp [hcl]⟩
  | some c =>
    have key : ∃ ch, m2 = heapSet m cid { c with send := ch } := by
      simp only [SendMessage, hc] at h
      cases hts : chanTrySend c.send msg with
      | none => rw [hts] at h; cases h
      | some p =>
        obtain ⟨ch, b⟩ := p
        rw [hts] at h
        cases b with
        | true => cases h; exact ⟨ch, rfl⟩
        | false =>
          cases hcl : chanClose c.send with
          | none => rw [hcl] at h; cases h
          | some ch2 => rw [hcl] at h; cases h; exact ⟨ch2, rfl⟩
    obtain ⟨ch, rfl⟩ := key
    refine ⟨rfl, rfl, rfl, ?_, ?_, ?_, ?_, ?_⟩
    · intro x hx
      simp [heapSet_lookup, hx]
    · intro x
      rw [usernameOf_heapSet]
      by_cases hx : x = cid
      · subst hx; simp [usernameOf, hc]
      · simp [hx]
    · intro x
      by_cases hx : x = cid
      · subst hx; simp [roomsOf, heapSet_lookup, hc]
      · simp [roomsOf, heapSet_lookup, hx]
    · intro x
      by_cases hx : x = cid
      · subst hx; simp [heapSet_lookup, hc]
      · simp [heapSet_lookup, hx]
    · intro x cl hcl
      by_cases hx : x = cid
      · subst hx
        rw [hc] at hcl
        cases hcl
        exact ⟨ch, by simp [heapSet_lookup]⟩
      · exact ⟨cl.send, by simpa [heapSet_lookup, hx] using hcl.symm ▸ by simp [hcl]⟩

/-- `cleanupClient` on a client with an open channel, fully unfolded. -/
theorem cleanupClient_eq {m : ClientManager} {cid : Nat} {c : Client}
    (hc : alookup m.heap cid = some c) (hopen : c.send.closed = false) :
    cleanupClient m cid =
      some { Clients := m.Clients.erase cid,
             UserClients := aerase m.UserClients c.user.username,
             Rooms := removeFromRooms m.Rooms cid c.rooms,
             heap := aset m.heap cid { c with send := { c.send with closed := true } } } := by
  simp [cleanupClient, hc, chanClose_open hopen]

/-- `cleanupClient` panics when the channel is already closed. -/
theorem cleanupClient_closed {m : ClientManager} {cid : Nat} {c : Client}
    (hc : alookup m.heap cid = some c) (hclosed : c.send.closed = true) :
    cleanupClient m cid = none := by
  simp [cleanupClient, hc, chanClose, hclosed]

theorem alookup_aerase_ne {α β : Type} [DecidableEq α] {l : List (α × β)} {k x : α}
    (h : x ≠ k) : alookup (aerase l k) x = alookup l x := by
  induction l with
  | nil => simp [aerase]
  | cons p rest ih =>
    obtain ⟨pk, pv⟩ := p
    by_cases h1 : pk = k
    · subst h1
      rw [aerase_cons_self, alookup_cons_ne _ _ (fun hh : pk = x => h hh.symm)]
    · by_cases h2 : pk = x
      · subst h2
        rw [aerase_cons_ne _ _ h1, alookup_cons_self, alookup_cons_self]
      · rw [aerase_cons_ne _ _ h1, alookup_cons_ne _ _ h2, alookup_cons_ne _ _ h2, ih]

/-! ## Lemmas about `removeFromRooms` -/

/-- One step of the room-removal fold. -/
def removeRoomStep (cid : Nat) (rms : List (String × List Nat)) (roomID : String) :
    List (String × List Nat) :=
  match alookup rms roomID with
  | none => rms
  | some members =>
    let members := members.erase cid
    if members.length = 0 then aerase rms roomID
    else aset rms roomID members

theorem removeFromRooms_nil (rms : List (String × List Nat)) (cid : Nat) :
    removeFromRooms rms cid [] = rms := rfl

theorem removeFromRooms_cons (rms : List (String × List Nat)) (cid : Nat)
    (r : String) (rest : List String) :
    removeFromRooms rms cid (r :: rest) =
      removeFromRooms (removeRoomStep cid rms r) cid rest := by
  simp only [removeFromRooms, List.foldl_cons]
  rfl

theorem akeys_removeRoomStep_nodup {rms : List (String × List Nat)} (cid : Nat)
    (r : String) (h : (akeys rms).Nodup) : (akeys (removeRoomStep cid rms r)).Nodup := by
  unfold removeRoomStep
  cases hr : alookup rms r with
  | none => exact h
  | some mem =>
    by_cases hl : (mem.erase cid).length = 0
    · simpa [hl] using nodup_akeys_aerase r h
    · simpa [hl] using nodup_akeys_aset _ h

theorem akeys_removeFromRooms_nodup {rms : List (String × List Nat)} {cid : Nat}
    {crooms : List String} (h : (akeys rms).Nodup) :
    (akeys (removeFromRooms rms cid crooms)).Nodup := by
  induction crooms generalizing rms with
  | nil => simpa [removeFromRooms_nil] using h
  | cons r rest ih =>
    rw [removeFromRooms_cons]
    exact ih (akeys_removeRoomStep_nodup cid r h)

theorem alookup_removeRoomStep_ne {rms : List (String × List Nat)} {cid : Nat}
    {r x : String} (h : x ≠ r) :
    alookup (removeRoomStep cid rms r) x = alookup rms x := by
  unfold removeRoomStep
  cases hr : alookup rms r with
  | none => rfl
  | some mem =>
    by_cases hl : (mem.erase cid).length = 0
    · simp [hl, alookup_aerase_ne h]
    · simp [hl, alookup_aset, h]

theorem alookup_removeFromRooms_not_mem {rms : List (String × List Nat)} {cid : Nat}
    {crooms : List String} {r : String} (h : r ∉ crooms) :
    alookup (removeFromRooms rms cid crooms) r = alookup rms r := by
  induction crooms generalizing rms with
  | nil => rw [removeFromRooms_nil]
  | cons c rest ih =>
    simp only [List.mem_cons] at h
    push_neg at h
    rw [removeFromRooms_cons, ih h.2, alookup_removeRoomStep_ne h.1]

theorem alookup_removeFromRooms_mem {rms : List (String × List Nat)} {cid : Nat}
    {crooms : List String} {r : String}
    (hknd : (akeys rms).Nodup) (hcnd : crooms.Nodup) (hr : r ∈ crooms) :
    alookup (removeFromRooms rms cid crooms) r =
      match alookup rms r with
      | none => none
      | some mem =>
        if (mem.erase cid).length = 0 then none else some (mem.erase cid) := by
  induction crooms generalizing rms with
  | nil => simp at hr
  | cons c rest ih =>
    simp only [List.nodup_cons] at hcnd
    rw [removeFromRooms_cons]
    by_cases hcr : r = c
    · subst hcr
      rw [alookup_removeFromRooms_not_mem hcnd.1]
      unfold removeRoomStep
      cases hrr : alookup rms r with
      | none => simp only [hrr]
      | some mem =>
        simp only [hrr]
        by_cases hl : (mem.erase cid).length = 0
        · rw [if_pos hl, if_pos hl, alookup_aerase rms r r hknd, if_pos rfl]
        · rw [if_neg hl, if_neg hl, alookup_aset, if_pos rfl]
    · simp only [List.mem_cons] at hr
      rcases hr with hr | hr
      · exact absurd hr hcr
      · rw [ih (akeys_removeRoomStep_nodup cid c hknd) hcnd.2 hr,
          alookup_removeRoomStep_ne hcr]

/-- `removeFromRooms` only ever shrinks member sets. -/
theorem mem_membersOf_removeFromRooms {rms : List (String × List Nat)} {cid : Nat}
    {crooms : List String} {r : String} {x : Nat}
    (hknd : (akeys rms).Nodup)
    (h : x ∈ ((alookup (removeFromRooms rms cid crooms) r).getD [])) :
    x ∈ ((alookup rms r).getD []) := by
  induction crooms generalizing rms with
  | nil => rwa [removeFromRooms_nil] at h
  | cons c rest ih =>
    rw [removeFromRooms_cons] at h
    have hx : x ∈ ((alookup (removeRoomStep cid rms c) r).getD []) :=
      ih (akeys_removeRoomStep_nodup cid c hknd) h
    by_cases hcr : r = c
    · subst hcr
      unfold removeRoomStep at hx
      cases hrr : alookup rms r with
      | none =>
        simp only [hrr] at hx
        exact hx
      | some mem =>
        simp only [hrr] at hx
        by_cases hl : (mem.erase cid).length = 0
        · rw [if_pos hl, alookup_aerase rms r r hknd, if_pos rfl] at hx
          simp at hx
        · rw [if_neg hl, alookup_aset, if_pos rfl] at hx
          simp only [Option.getD_some] at hx
          simp only [Option.getD_some]
          exact List.mem_of_mem_erase hx
    · rwa [alookup_removeRoomStep_ne hcr] at hx

/-- After `removeFromRooms`, the departing client is a member of none of
the rooms that were listed in its own room set. -/
theorem not_mem_membersOf_removeFromRooms {rms : List (String × List Nat)} {cid : Nat}
    {crooms : List String} {r : String}
    (hknd : (akeys rms).Nodup) (hcnd : crooms.Nodup)
    (hmnd : ∀ p ∈ rms, (p.2 : List Nat).Nodup) (hr : r ∈ crooms) :
    cid ∉ ((alookup (removeFromRooms rms cid crooms) r).getD []) := by
  rw [alookup_removeFromRooms_mem hknd hcnd hr]
  cases hrr : alookup rms r with
  | none => simp
  | some mem =>
    by_cases hl : (mem.erase cid).length = 0
    · simp [hl]
    · simp only [hl, if_neg hl, Option.getD_some]
      have hnd : mem.Nodup := hmnd (r, mem) (alookup_mem hrr)
      intro hcontra
      exact absurd ((List.Nodup.mem_erase_iff hnd).mp hcontra).1 (by simp)

/-! ## Lemmas about the delivery loop -/

theorem deliverStep_skip_none {m : ClientManager} {cid : Nat} (msg : Message)
    (excl : String) (acc : List Nat) (h : alookup m.heap cid = none) :
    deliverStep m cid msg excl acc = some (m, acc) := by
  simp [deliverStep, h]

theorem deliverStep_skip_excl {m : ClientManager} {cid : Nat} {c : Client} (msg : Message)
    (acc : List Nat) (hc : alookup m.heap cid = some c) :
    deliverStep m cid msg c.user.username acc = some (m, acc) := by
  simp [deliverStep, hc]

theorem deliverStep_enqueue {m : ClientManager} {cid : Nat} {c : Client} {excl : String}
    (msg : Message) (acc : List Nat) (hc : alookup m.heap cid = some c)
    (hx : c.user.username ≠ excl) (hopen : c.send.closed = false)
    (hroom : c.send.msgs.length < c.send.cap) :
    deliverStep m cid msg excl acc =
      some (heapSet m cid { c with send := { c.send with msgs := c.send.msgs ++ [msg] } },
        acc ++ [cid]) := by
  simp [deliverStep, hc, hx, chanTrySend_enqueue hopen hroom]

theorem deliverStep_full {m : ClientManager} {cid : Nat} {c : Client} {excl : String}
    (msg : Message) (acc : List Nat) (hc : alookup m.heap cid = some c)
    (hx : c.user.username ≠ excl) (hopen : c.send.closed = false)
    (hfull : ¬ c.send.msgs.length < c.send.cap) :
    deliverStep m cid msg excl acc =
      some ({ Clients := m.Clients.erase cid,
              UserClients := aerase m.UserClients c.user.username,
              Rooms := removeFromRooms m.Rooms cid c.rooms,
              heap := aset m.heap cid { c with send := { c.send with closed := true } } },
        acc ++ [cid]) := by
  simp [deliverStep, hc, hx, chanTrySend_full hopen hfull, cleanupClient_eq hc hopen]

theorem deliverStep_closed {m : ClientManager} {cid : Nat} {c : Client} {excl : String}
    (msg : Message) (acc : List Nat) (hc : alookup m.heap cid = some c)
    (hx : c.user.username ≠ excl) (hclosed : c.send.closed = true) :
    deliverStep m cid msg excl acc = none := by
  simp [deliverStep, hc, hx, chanTrySend_closed hclosed]

/-- The delivery loop when every non-excluded target in the snapshot has an
open queue with room: everyone not excluded gets the message appended,
nothing else changes. -/
theorem broadcastLoop_roomy (snapshot : List Nat) :
    ∀ (m : ClientManager) (msg : Message) (excl : String) (acc : List Nat),
    snapshot.Nodup →
    (∀ c ∈ snapshot, ∃ cl, alookup m.heap c = some cl ∧
       (cl.user.username ≠ excl → cl.send.closed = false ∧ cl.send.msgs.length < cl.send.cap)) →
    ∃ m2, broadcastLoop m snapshot msg excl acc =
        some (m2, acc ++ snapshot.filter (fun c => decide (usernameOf m c ≠ some excl))) ∧
      m2.Clients = m.Clients ∧ m2.UserClients = m.UserClients ∧ m2.Rooms = m.Rooms ∧
      (∀ x, x ∉ snapshot → alookup m2.heap x = alookup m.heap x) ∧
      (∀ x, usernameOf m x = some excl → alookup m2.heap x = alookup m.heap x) ∧
      (∀ c ∈ snapshot, ∀ cl, alookup m.heap c = some cl → cl.user.username ≠ excl →
         alookup m2.heap c =
           some { cl with send := { cl.send with msgs := cl.send.msgs ++ [msg] } }) := by
  induction snapshot with
  | nil =>
    intro m msg excl acc _ _
    exact ⟨m, by simp [broadcastLoop], rfl, rfl, rfl, fun x _ => rfl, fun x _ => rfl,
      by simp⟩
  | cons c rest ih =>
    intro m msg excl acc hnd hdef
    simp only [List.nodup_cons] at hnd
    obtain ⟨cl, hcl, hcond⟩ := hdef c (List.mem_cons_self _ _)
    have huser : usernameOf m c = some cl.user.username := by simp [usernameOf, hcl]
    by_cases hx : cl.user.username = excl
    · -- excluded: the step is a no-op
      have hstep : deliverStep m c msg excl acc = some (m, acc) := by
        rw [← hx]; exact deliverStep_skip_excl msg acc hcl
      obtain ⟨m2, hrun, h1, h2, h3, h4, h5, h6⟩ :=
        ih m msg excl acc hnd.2 (fun x hxr => hdef x (List.mem_cons_of_mem _ hxr))
      refine ⟨m2, ?_, h1, h2, h3, ?_, h5, ?_⟩
      · have hatt : acc ++ List.filter (fun x => decide (usernameOf m x ≠ some excl)) (c :: rest)
            = acc ++ List.filter (fun x => decide (usernameOf m x ≠ some excl)) rest := by
          simp [List.filter_cons, huser, hx]
        rw [broadcastLoop, hstep, hatt]
        exact hrun
      · intro x hxmem
        exact h4 x (fun hh => hxmem (List.mem_cons_of_mem _ hh))
      · intro c2 hc2 cl2 hcl2 hx2
        rcases List.mem_cons.mp hc2 with rfl | hc2
        · rw [hcl] at hcl2; cases hcl2; exact absurd hx hx2
        · exact h6 c2 hc2 cl2 hcl2 hx2
    · -- delivered: enqueue onto c's queue
      obtain ⟨hopen, hroom⟩ := hcond hx
      have hstep := deliverStep_enqueue (m := m) msg acc hcl hx hopen hroom
      set mm : ClientManager :=
        heapSet m c { cl with send := { cl.send with msgs := cl.send.msgs ++ [msg] } } with hmm
      have husame : ∀ x, usernameOf mm x = usernameOf m x := by
        intro x
        rw [usernameOf_heapSet]
        by_cases hxc : x = c
        · subst hxc; simp [huser]
        · simp [hxc]
      have hframe : ∀ x, x ≠ c → alookup mm.heap x = alookup m.heap x := by
        intro x hxc
        simp [hmm, heapSet_lookup, hxc]
      obtain ⟨m2, hrun, h1, h2, h3, h4, h5, h6⟩ :=
        ih mm msg excl (acc ++ [c]) hnd.2 (by
          intro x hxr
          obtain ⟨cl2, hcl2, hcond2⟩ := hdef x (List.mem_cons_of_mem _ hxr)
          exact ⟨cl2, by rw [hframe x (fun hh => hnd.1 (hh ▸ hxr))]; exact hcl2, hcond2⟩)
      refine ⟨m2, ?_, by simp [h1, hmm, heapSet], by simp [h2, hmm, heapSet],
        by simp [h3, hmm, heapSet], ?_, ?_, ?_⟩
      · have hfeq : rest.filter (fun x => decide (usernameOf mm x ≠ some excl)) =
            rest.filter (fun x => decide (usernameOf m x ≠ some excl)) :=
          List.filter_congr (fun x _ => by rw [husame x])
        have hrun2 : broadcastLoop mm rest msg excl (acc ++ [c]) =
            some (m2, (acc ++ [c]) ++
              List.filter (fun x => decide (usernameOf m x ≠ some excl)) rest) := by
          rw [hrun, hfeq]
        have hatt : acc ++ List.filter (fun x => decide (usernameOf m x ≠ some excl)) (c :: rest)
            = (acc ++ [c]) ++ List.filter (fun x => decide (usernameOf m x ≠ some excl)) rest := by
          simp [List.filter_cons, huser, hx]
        rw [broadcastLoop, hstep, hatt]
        exact hrun2
      · intro x hxmem
        have hxc : x ≠ c := fun hh => hxmem (hh ▸ List.mem_cons_self _ _)
        rw [h4 x (fun hh => hxmem (List.mem_cons_of_mem _ hh)), hframe x hxc]
      · intro x hux
        have hxc : x ≠ c := by
          intro hh
          subst hh
          rw [huser] at hux
          exact hx (by injection hux)
        rw [h5 x (by rw [husame x]; exact hux), hframe x hxc]
      · intro c2 hc2 cl2 hcl2 hx2
        rcases List.mem_cons.mp hc2 with rfl | hc2
        · rw [hcl] at hcl2
          cases hcl2
          rw [h4 c2 hnd.1]
          simp [hmm, heapSet_lookup]
        · have hc2c : c2 ≠ c := fun hh => hnd.1 (hh ▸ hc2)
          exact h6 c2 hc2 cl2 (by rw [hframe c2 hc2c]; exact hcl2) hx2

/-- The delivery loop never panics when every non-excluded target has an
open queue; the attempted targets are exactly the non-excluded snapshot
members, and the heap cells of excluded clients are untouched. -/
theorem broadcastLoop_att (snapshot : List Nat) :
    ∀ (m : ClientManager) (msg : Message) (excl : String) (acc : List Nat),
    snapshot.Nodup →
    (∀ c ∈ snapshot, ∃ cl, alookup m.heap c = some cl ∧
       (cl.user.username ≠ excl → cl.send.closed = false)) →
    ∃ m2, broadcastLoop m snapshot msg excl acc =
        some (m2, acc ++ snapshot.filter (fun c => decide (usernameOf m c ≠ some excl))) ∧
      (∀ x, usernameOf m2 x = usernameOf m x) ∧
      (∀ x, usernameOf m x = some excl → alookup m2.heap x = alookup m.heap x) := by
  induction snapshot with
  | nil =>
    intro m msg excl acc _ _
    exact ⟨m, by simp [broadcastLoop], fun x => rfl, fun x _ => rfl⟩
  | cons c rest ih =>
    intro m msg excl acc hnd hdef
    simp only [List.nodup_cons] at hnd
    obtain ⟨cl, hcl, hcond⟩ := hdef c (List.mem_cons_self _ _)
    have huser : usernameOf m c = some cl.user.username := by simp [usernameOf, hcl]
    by_cases hx : cl.user.username = excl
    · have hstep : deliverStep m c msg excl acc = some (m, acc) := by
        rw [← hx]; exact deliverStep_skip_excl msg acc hcl
      obtain ⟨m2, hrun, h1, h2⟩ :=
        ih m msg excl acc hnd.2 (fun x hxr => hdef x (List.mem_cons_of_mem _ hxr))
      refine ⟨m2, ?_, h1, h2⟩
      have hatt : acc ++ List.filter (fun x => decide (usernameOf m x ≠ some excl)) (c :: rest)
          = acc ++ List.filter (fun x => decide (usernameOf m x ≠ some excl)) rest := by
        simp [List.filter_cons, huser, hx]
      rw [broadcastLoop, hstep, hatt]
      exact hrun
    · have hopen := hcond hx
      have key : ∃ mm, deliverStep m c msg excl acc = some (mm, acc ++ [c]) ∧
          (∀ x, x ≠ c → alookup mm.heap x = alookup m.heap x) ∧
          (∀ x, usernameOf mm x = usernameOf m x) := by
        by_cases hroom : cl.send.msgs.length < cl.send.cap
        · refine ⟨_, deliverStep_enqueue msg acc hcl hx hopen hroom, ?_, ?_⟩
          · intro x hxc; simp [heapSet_lookup, hxc]
          · intro x
            rw [usernameOf_heapSet]
            by_cases hxc : x = c
            · subst hxc; simp [huser]
            · simp [hxc]
        · refine ⟨_, deliverStep_full msg acc hcl hx hopen hroom, ?_, ?_⟩
          · intro x hxc; simp [alookup_aset, hxc]
          · intro x
            by_cases hxc : x = c
            · subst hxc; simp [usernameOf, alookup_aset, hcl]
            · simp [usernameOf, alookup_aset, hxc]
      obtain ⟨mm, hstep, hframe, husame⟩ := key
      obtain ⟨m2, hrun, h1, h2⟩ :=
        ih mm msg excl (acc ++ [c]) hnd.2 (by
          intro x hxr
          obtain ⟨cl2, hcl2, hcond2⟩ := hdef x (List.mem_cons_of_mem _ hxr)
          exact ⟨cl2, by rw [hframe x (fun hh => hnd.1 (hh ▸ hxr))]; exact hcl2, hcond2⟩)
      refine ⟨m2, ?_, fun x => (h1 x).trans (husame x), ?_⟩
      · have hfeq : rest.filter (fun x => decide (usernameOf mm x ≠ some excl)) =
            rest.filter (fun x => decide (usernameOf m x ≠ some excl)) :=
          List.filter_congr (fun x _ => by rw [husame x])
        have hrun2 : broadcastLoop mm rest msg excl (acc ++ [c]) =
            some (m2, (acc ++ [c]) ++
              List.filter (fun x => decide (usernameOf m x ≠ some excl)) rest) := by
          rw [hrun, hfeq]
        have hatt : acc ++ List.filter (fun x => decide (usernameOf m x ≠ some excl)) (c :: rest)
            = (acc ++ [c]) ++ List.filter (fun x => decide (usernameOf m x ≠ some excl)) rest := by
          simp [List.filter_cons, huser, hx]
        rw [broadcastLoop, hstep, hatt]
        exact hrun2
      · intro x hux
        have hxc : x ≠ c := by
          intro hh
          subst hh
          rw [huser] at hux
          exact hx (by injection hux)
        rw [h2 x (by rw [husame x]; exact hux), hframe x hxc]

/-- The delivery loop when exactly one snapshot member (`k`) has a full
open queue and every other non-excluded member has room: `k` alone is
cleaned up, everyone else not excluded still gets the message. -/
theorem broadcastLoop_onefull (snapshot : List Nat) :
    ∀ (m : ClientManager) (msg : Message) (excl : String) (acc : List Nat)
      (k : Nat) (ck : Client),
    snapshot.Nodup →
    alookup m.heap k = some ck →
    ck.send.closed = false → ¬ ck.send.msgs.length < ck.send.cap →
    ck.user.username ≠ excl →
    (∀ c ∈ snapshot, c ≠ k → ∃ cl, alookup m.heap c = some cl ∧
       (cl.user.username ≠ excl → cl.send.closed = false ∧ cl.send.msgs.length < cl.send.cap)) →
    ∃ m2 att, broadcastLoop m snapshot msg excl acc = some (m2, att) ∧
      m2.Clients = (if k ∈ snapshot then m.Clients.erase k else m.Clients) ∧
      (∀ x, x ∉ snapshot → alookup m2.heap x = alookup m.heap x) ∧
      (∀ c ∈ snapshot, c ≠ k → ∀ cl, alookup m.heap c = some cl → cl.user.username ≠ excl →
         alookup m2.heap c =
           some { cl with send := { cl.send with msgs := cl.send.msgs ++ [msg] } }) := by
  induction snapshot with
  | nil =>
    intro m msg excl acc k ck _ _ _ _ _ _
    exact ⟨m, acc, by simp [broadcastLoop], by simp, fun x _ => rfl, by simp⟩
  | cons c rest ih =>
    intro m msg excl acc k ck hnd hk hkopen hkfull hkex hdef
    simp only [List.nodup_cons] at hnd
    by_cases hck : c = k
    · -- the full client: cleaned up, then the rest is all roomy
      subst hck
      have hstep := deliverStep_full msg acc hk hkex hkopen hkfull
      set mfull : ClientManager :=
        { Clients := m.Clients.erase c,
          UserClients := aerase m.UserClients ck.user.username,
          Rooms := removeFromRooms m.Rooms c ck.rooms,
          heap := aset m.heap c { ck with send := { ck.send with closed := true } } }
        with hmf
      have hframe : ∀ x, x ≠ c → alookup mfull.heap x = alookup m.heap x := by
        intro x hxc; simp [hmf, alookup_aset, hxc]
      obtain ⟨m2, hrun, h1, h2, h3, h4, h5, h6⟩ :=
        broadcastLoop_roomy rest mfull msg excl (acc ++ [c]) hnd.2 (by
          intro x hxr
          have hxc : x ≠ c := fun hh => hnd.1 (hh ▸ hxr)
          obtain ⟨cl2, hcl2, hcond2⟩ := hdef x (List.mem_cons_of_mem _ hxr) hxc
          exact ⟨cl2, by rw [hframe x hxc]; exact hcl2, hcond2⟩)
      refine ⟨m2,
        acc ++ [c] ++ List.filter (fun x => decide (usernameOf mfull x ≠ some excl)) rest,
        ?_, ?_, ?_, ?_⟩
      · rw [broadcastLoop, hstep]
        exact hrun
      · rw [h1, hmf]
        simp
      · intro x hxmem
        have hxc : x ≠ c := fun hh => hxmem (hh ▸ List.mem_cons_self _ _)
        rw [h4 x (fun hh => hxmem (List.mem_cons_of_mem _ hh)), hframe x hxc]
      · intro c2 hc2 hc2k cl2 hcl2 hx2
        rcases List.mem_cons.mp hc2 with rfl | hc2
        · exact absurd rfl hc2k
        · have hc2c : c2 ≠ c := fun hh => hnd.1 (hh ▸ hc2)
          exact h6 c2 hc2 cl2 (by rw [hframe c2 hc2c]; exact hcl2) hx2
    · -- a roomy (or excluded) client before k
      obtain ⟨cl, hcl, hcond⟩ := hdef c (List.mem_cons_self _ _) hck
      have huser : usernameOf m c = some cl.user.username := by simp [usernameOf, hcl]
      have hkc : k ≠ c := fun hh => hck hh.symm
      have hifeq : (if k ∈ c :: rest then m.Clients.erase k else m.Clients)
          = (if k ∈ rest then m.Clients.erase k else m.Clients) := by
        by_cases hkr : k ∈ rest <;> simp [hkr, List.mem_cons, hkc]
      by_cases hx : cl.user.username = excl
      · have hstep : deliverStep m c msg excl acc = some (m, acc) := by
          rw [← hx]; exact deliverStep_skip_excl msg acc hcl
        obtain ⟨m2, att, hrun, h1, h2, h3⟩ :=
          ih m msg excl acc k ck hnd.2 hk hkopen hkfull hkex
            (fun x hxr hxk => hdef x (List.mem_cons_of_mem _ hxr) hxk)
        refine ⟨m2, att, ?_, ?_, ?_, ?_⟩
        · rw [broadcastLoop, hstep]; exact hrun
        · rw [h1, hifeq]
        · intro x hxmem
          exact h2 x (fun hh => hxmem (List.mem_cons_of_mem _ hh))
        · intro c2 hc2 hc2k cl2 hcl2 hx2
          rcases List.mem_cons.mp hc2 with rfl | hc2
          · rw [hcl] at hcl2; cases hcl2; exact absurd hx hx2
          · exact h3 c2 hc2 hc2k cl2 hcl2 hx2
      · obtain ⟨hopen, hroom⟩ := hcond hx
        have hstep := deliverStep_enqueue (m := m) msg acc hcl hx hopen hroom
        set mm : ClientManager :=
          heapSet m c { cl with send := { cl.send with msgs := cl.send.msgs ++ [msg] } }
          with hmm
        have hframe : ∀ x, x ≠ c → alookup mm.heap x = alookup m.heap x := by
          intro x hxc
          simp [hmm, heapSet_lookup, hxc]
        obtain ⟨m2, att, hrun, h1, h2, h3⟩ :=
          ih mm msg excl (acc ++ [c]) k ck hnd.2 (by rw [hframe k hkc]; exact hk)
            hkopen hkfull hkex
            (by
              intro x hxr hxk
              obtain ⟨cl2, hcl2, hcond2⟩ := hdef x (List.mem_cons_of_mem _ hxr) hxk
              exact ⟨cl2, by rw [hframe x (fun hh => hnd.1 (hh ▸ hxr))]; exact hcl2, hcond2⟩)
        refine ⟨m2, att, ?_, ?_, ?_, ?_⟩
        · rw [broadcastLoop, hstep]; exact hrun
        · rw [h1]
          have hcm : mm.Clients = m.Clients := by simp [hmm, heapSet]
          rw [hcm, hifeq]
        · intro x hxmem
          have hxc : x ≠ c := fun hh => hxmem (hh ▸ List.mem_cons_self _ _)
          rw [h2 x (fun hh => hxmem (List.mem_cons_of_mem _ hh)), hframe x hxc]
        · intro c2 hc2 hc2k cl2 hcl2 hx2
          rcases List.mem_cons.mp hc2 with rfl | hc2
          · rw [hcl] at hcl2
            cases hcl2
            rw [h2 c2 hnd.1]
            simp [hmm, heapSet_lookup]
          · have hc2c : c2 ≠ c := fun hh => hnd.1 (hh ▸ hc2)
            exact h3 c2 hc2 hc2k cl2 (by rw [hframe c2 hc2c]; exact hcl2) hx2

/-- One successful delivery step only shrinks the client set and the room
member sets, and rewrites heap cells only at their channel component. -/
theorem deliverStep_mono {m : ClientManager} {cid : Nat} {msg : Message} {excl : String}
    {acc : List Nat} {m2 : ClientManager} {att : List Nat}
    (hknd : (akeys m.Rooms).Nodup)
    (h : deliverStep m cid msg excl acc = some (m2, att)) :
    (∀ x, x ∈ m2.Clients → x ∈ m.Clients) ∧
    (∀ r x, x ∈ membersOf m2 r → x ∈ membersOf m r) ∧
    (∀ x cl, alookup m.heap x = some cl → ∃ ch, alookup m2.heap x = some { cl with send := ch }) ∧
    (akeys m2.Rooms).Nodup := by
  have hid : m2 = m →
      (∀ x, x ∈ m2.Clients → x ∈ m.Clients) ∧
      (∀ r x, x ∈ membersOf m2 r → x ∈ membersOf m r) ∧
      (∀ x cl, alookup m.heap x = some cl →
        ∃ ch, alookup m2.heap x = some { cl with send := ch }) ∧
      (akeys m2.Rooms).Nodup := by
    rintro rfl
    exact ⟨fun x hx => hx, fun r x hx => hx,
      fun x cl hcl => ⟨cl.send, by simpa using hcl⟩, hknd⟩
  cases hc : alookup m.heap cid with
  | none =>
    rw [deliverStep_skip_none msg excl acc hc] at h
    cases h
    exact hid rfl
  | some c =>
    by_cases hx : c.user.username = excl
    · rw [← hx, deliverStep_skip_excl msg acc hc] at h
      cases h
      exact hid rfl
    · cases hclosed : c.send.closed with
      | true =>
        rw [deliverStep_closed msg acc hc hx hclosed] at h
        cases h
      | false =>
        by_cases hroom : c.send.msgs.length < c.send.cap
        · rw [deliverStep_enqueue msg acc hc hx hclosed hroom] at h
          cases h
          refine ⟨fun x hx2 => hx2, fun r x hx2 => hx2, ?_, hknd⟩
          intro x cl hcl
          by_cases hxc : x = cid
          · subst hxc
            rw [hc] at hcl
            cases hcl
            exact ⟨{ c.send with msgs := c.send.msgs ++ [msg] }, by simp [heapSet_lookup]⟩
          · exact ⟨cl.send, by rw [heapSet_lookup, if_neg hxc, hcl]⟩
        · rw [deliverStep_full msg acc hc hx hclosed hroom] at h
          cases h
          refine ⟨?_, ?_, ?_, ?_⟩
          · intro x hx2
            exact (List.erase_sublist cid m.Clients).mem hx2
          · intro r x hx2
            exact mem_membersOf_removeFromRooms hknd hx2
          · intro x cl hcl
            by_cases hxc : x = cid
            · subst hxc
              rw [hc] at hcl
              cases hcl
              exact ⟨{ c.send with closed := true }, by simp [alookup_aset]⟩
            · exact ⟨cl.send, by simp only [alookup_aset, if_neg hxc]; rw [hcl]⟩
          · exact akeys_removeFromRooms_nodup hknd

/-- The whole delivery loop only shrinks the client set and the room
member sets, and rewrites heap cells only at their channel component. -/
theorem broadcastLoop_mono (snapshot : List Nat) :
    ∀ (m : ClientManager) (msg : Message) (excl : String) (acc : List Nat)
      (m2 : ClientManager) (att : List Nat),
    (akeys m.Rooms).Nodup →
    broadcastLoop m snapshot msg excl acc = some (m2, att) →
      (∀ x, x ∈ m2.Clients → x ∈ m.Clients) ∧
      (∀ r x, x ∈ membersOf m2 r → x ∈ membersOf m r) ∧
      (∀ x cl, alookup m.heap x = some cl →
        ∃ ch, alookup m2.heap x = some { cl with send := ch }) ∧
      (akeys m2.Rooms).Nodup := by
  induction snapshot with
  | nil =>
    intro m msg excl acc m2 att hknd h
    rw [broadcastLoop] at h
    cases h
    exact ⟨fun x hx => hx, fun r x hx => hx,
      fun x cl hcl => ⟨cl.send, by simpa using hcl⟩, hknd⟩
  | cons c rest ih =>
    intro m msg excl acc m2 att hknd h
    rw [broadcastLoop] at h
    cases hstep : deliverStep m c msg excl acc with
    | none => rw [hstep] at h; cases h
    | some p =>
      obtain ⟨mm, acc2⟩ := p
      rw [hstep] at h
      obtain ⟨s1, s2, s3, s4⟩ := deliverStep_mono hknd hstep
      obtain ⟨t1, t2, t3, t4⟩ := ih mm msg excl acc2 m2 att s4 h
      refine ⟨fun x hx => s1 x (t1 x hx), fun r x hx => s2 r x (t2 r x hx), ?_, t4⟩
      intro x cl hcl
      obtain ⟨ch1, hch1⟩ := s3 x cl hcl
      obtain ⟨ch2, hch2⟩ := t3 x _ hch1
      exact ⟨ch2, by simpa using hch2⟩

theorem alookup_of_mem_nodup {α β : Type} [DecidableEq α] {l : List (α × β)} {p : α × β}
    (hnd : (akeys l).Nodup) (hp : p ∈ l) : alookup l p.1 = some p.2 := by
  induction l with
  | nil => simp at hp
  | cons q rest ih =>
    obtain ⟨qk, qv⟩ := q
    rw [akeys_cons] at hnd
    simp only [List.nodup_cons] at hnd
    rcases List.mem_cons.mp hp with heq | htail
    · subst heq
      exact alookup_cons_self _ _ _
    · have hne : qk ≠ p.1 := by
        intro hh
        subst hh
        exact hnd.1 (List.mem_map_of_mem Prod.fst htail)
      rw [alookup_cons_ne _ _ hne]
      exact ih hnd.2 htail

/-- A successful delivery step never grows the client set. -/
theorem deliverStep_clients_subset {m : ClientManager} {cid : Nat} {msg : Message}
    {excl : String} {acc : List Nat} {m2 : ClientManager} {att : List Nat}
    (h : deliverStep m cid msg excl acc = some (m2, att)) :
    ∀ x, x ∈ m2.Clients → x ∈ m.Clients := by
  cases hc : alookup m.heap cid with
  | none =>
    rw [deliverStep_skip_none msg excl acc hc] at h
    cases h
    exact fun x hx => hx
  | some c =>
    by_cases hx : c.user.username = excl
    · rw [← hx, deliverStep_skip_excl msg acc hc] at h
      cases h
      exact fun x hx2 => hx2
    · cases hclosed : c.send.closed with
      | true =>
        rw [deliverStep_closed msg acc hc hx hclosed] at h
        cases h
      | false =>
        by_cases hroom : c.send.msgs.length < c.send.cap
        · rw [deliverStep_enqueue msg acc hc hx hclosed hroom] at h
          cases h
          exact fun x hx2 => hx2
        · rw [deliverStep_full msg acc hc hx hclosed hroom] at h
          cases h
          exact fun x hx2 => (List.erase_sublist cid m.Clients).mem hx2

/-- The delivery loop never grows the client set. -/
theorem broadcastLoop_clients_subset (snapshot : List Nat) :
    ∀ (m : ClientManager) (msg : Message) (excl : String) (acc : List Nat)
      (m2 : ClientManager) (att : List Nat),
    broadcastLoop m snapshot msg excl acc = some (m2, att) →
    ∀ x, x ∈ m2.Clients → x ∈ m.Clients := by
  induction snapshot with
  | nil =>
    intro m msg excl acc m2 att h
    rw [broadcastLoop] at h
    cases h
    exact fun x hx => hx
  | cons c rest ih =>
    intro m msg excl acc m2 att h
    rw [broadcastLoop] at h
    cases hstep : deliverStep m c msg excl acc with
    | none => rw [hstep] at h; cases h
    | some p =>
      obtain ⟨mm, acc2⟩ := p
      rw [hstep] at h
      exact fun x hx =>
        deliverStep_clients_subset hstep x (ih mm msg excl acc2 m2 att h x hx)

/-- The `unregisterClient` no-op on an absent client, as an equation. -/
theorem unregisterClient_absent {m : ClientManager} {cid : Nat}
    (h : cid ∉ m.Clients) : unregisterClient m cid = some (m, []) := by
  simp [unregisterClient, h]

/-- C7: unregistering a connection that is not in the connection set leaves
the whole registry unchanged, closes no queue and emits no notification;
consequently processing `unregister` twice for the same connection has the
same effect as processing it once. -/
theorem C7_unregister_idempotent (m : ClientManager) (cid : Nat)
    (hnd : m.Clients.Nodup) :
    (cid ∉ m.Clients → unregisterClient m cid = some (m, [])) ∧
    (∀ m2 att, unregisterClient m cid = some (m2, att) →
       unregisterClient m2 cid = some (m2, [])) := by
  refine ⟨fun h => unregisterClient_absent h, ?_⟩
  intro m2 att h
  by_cases hmem : cid ∈ m.Clients
  · simp only [unregisterClient, if_pos hmem] at h
    cases hc : alookup m.heap cid with
    | none =>
      simp only [hc, Option.some.injEq, Prod.mk.injEq] at h
      obtain ⟨h1, h2⟩ := h
      subst h1
      simp [unregisterClient, hmem, hc]
    | some c =>
      simp only [hc] at h
      cases hcl : chanClose c.send with
      | none => simp [hcl] at h
      | some ch =>
        simp only [hcl, broadcastToAll] at h
        have hnot : cid ∉ m2.Clients := by
          intro hcontra
          have hsub := broadcastLoop_clients_subset _ _ _ _ _ _ _ h cid hcontra
          exact absurd ((List.Nodup.mem_erase_iff hnd).mp hsub).1 (by simp)
        exact unregisterClient_absent hnot
  · rw [unregisterClient_absent hmem] at h
    cases h
    exact unregisterClient_absent hmem

/-- A two-client demonstration registry. -/
def c7demo : ClientManager :=
  { Clients := [1], UserClients := [("alice", 1)], Rooms := [],
    heap := [(1, newClient 10 "alice")] }

/-- The result of unregistering the one registered client of `c7demo`. -/
def c7pair : ClientManager × List Nat :=
  (unregisterClient c7demo 1).getD (c7demo, [])

/-- Witness for C7: an absent unregister is a no-op and a second
unregister of a just-removed client is a no-op, at a concrete registry. -/
theorem C7_unregister_idempotent_witness :
    unregisterClient c7demo 2 = some (c7demo, []) ∧
    unregisterClient c7pair.1 1 = some (c7pair.1, []) := by
  constructor
  · exact (C7_unregister_idempotent c7demo 2 (by decide)).1 (by decide)
  · exact (C7_unregister_idempotent c7demo 1 (by decide)).2 c7pair.1 c7pair.2 (by decide)

/-- C6: a room-mode dispatch with an empty room id behaves exactly as a
broadcast to all; with an unknown room id it delivers to no one and leaves
the state unchanged; otherwise the delivery attempts go to exactly the
members of the room whose username differs from the excluded username (the
Go loop over the member set with the exclusion test), and the excluded
username's connection is untouched — it never receives the notification. -/
theorem C6_broadcastToRoom_spec (m : ClientManager) (msg : Message) (excl : String)
    (rid : String) (members : List Nat)
    (hne : rid ≠ "")
    (hmem : alookup m.Rooms rid = some members)
    (hnd : members.Nodup)
    (hdef : ∀ c ∈ members, ∃ cl, alookup m.heap c = some cl ∧
       (cl.user.username ≠ excl → cl.send.closed = false)) :
    (∀ msg2 excl2, broadcastToRoom m msg2 "" excl2 = broadcastToAll m msg2 excl2) ∧
    (∀ r2, r2 ≠ "" → alookup m.Rooms r2 = none →
       broadcastToRoom m msg r2 excl = some (m, [])) ∧
    (∃ m2, broadcastToRoom m msg rid excl =
        some (m2, members.filter (fun c => decide (usernameOf m c ≠ some excl))) ∧
      (∀ x ∈ members.filter (fun c => decide (usernameOf m c ≠ some excl)),
         usernameOf m x ≠ some excl) ∧
      (∀ x, usernameOf m x = some excl → alookup m2.heap x = alookup m.heap x)) := by
  refine ⟨fun msg2 excl2 => by simp [broadcastToRoom], fun r2 h2 hnone => by
    simp [broadcastToRoom, h2, hnone], ?_⟩
  obtain ⟨m2, hrun, hus, hfr⟩ := broadcastLoop_att members m msg excl [] hnd hdef
  refine ⟨m2, ?_, ?_, hfr⟩
  · rw [broadcastToRoom, if_neg hne, hmem]
    simpa using hrun
  · intro x hx
    have := List.of_mem_filter hx
    simpa using this

/-- A demonstration registry: alice (1) and bob (2) are in room `general`,
carol (3) is connected but not in the room. -/
def c6demo : ClientManager :=
  { Clients := [1, 2, 3],
    UserClients := [("alice", 1), ("bob", 2), ("carol", 3)],
    Rooms := [("general", [1, 2])],
    heap := [(1, { newClient 10 "alice" with rooms := ["general"] }),
             (2, { newClient 11 "bob" with rooms := ["general"] }),
             (3, newClient 12 "carol")] }

/-- Witness for C6 at `c6demo`: an unknown room is a no-op and a dispatch to
`general` excluding alice targets exactly bob. -/
theorem C6_broadcastToRoom_spec_witness :
    broadcastToRoom c6demo pongMsg "nosuch" "alice" = some (c6demo, []) ∧
    (∃ m2, broadcastToRoom c6demo pongMsg "general" "alice" =
        some (m2, [1, 2].filter (fun c => decide (usernameOf c6demo c ≠ some "alice"))) ∧
      (∀ x ∈ [1, 2].filter (fun c => decide (usernameOf c6demo c ≠ some "alice")),
         usernameOf c6demo x ≠ some "alice") ∧
      (∀ x, usernameOf c6demo x = some "alice" →
         alookup m2.heap x = alookup c6demo.heap x)) := by
  have hth := C6_broadcastToRoom_spec c6demo pongMsg "alice" "general" [1, 2]
    (by decide) (by decide) (by decide)
    (by
      intro c hc
      fin_cases hc
      · exact ⟨{ newClient 10 "alice" with rooms := ["general"] }, by decide, by decide⟩
      · exact ⟨{ newClient 11 "bob" with rooms := ["general"] }, by decide, by decide⟩)
  exact ⟨hth.2.1 "nosuch" (by decide) (by decide), hth.2.2⟩

set_option maxRecDepth 400000

/-- A private message from alice to the offline user bob. -/
def c5msg : Message :=
  { mtype := "private_message", content := "hey", userId := 10,
    username := "alice", recipient := "bob" }

/-- Reaching a registered sender with a full queue: register alice, then
254 `join_room` requests; each `room_joined` confirmation occupies one
queue slot, so her 256-slot queue ends exactly full (welcome +
online-users + 254 confirmations). -/
def c5script : List HubOp :=
  HubOp.register 1 10 "alice" :: List.replicate 254 (HubOp.joinRoom 1 "general")

/-- Counterexample to C5 as stated: alice is still registered and the
target `bob` is offline, yet NO error notification is enqueued to alice —
her queue is full, so `SendMessage` closes it instead (zero `error`
messages in her queue afterwards, channel closed). -/
theorem C5_counterexample :
    ((runOps initManager c5script).bind (fun m =>
      (sendPrivateMessage m c5msg "bob").map (fun p =>
        (decide (1 ∈ m.Clients),
         alookup m.UserClients "bob",
         p.2,
         (alookup p.1.heap 1).map (fun c =>
           (c.send.closed,
            (c.send.msgs.filter (fun x => decide (x.mtype = "error"))).length))))))
    = some (true, none, [], some (true, 0)) := by decide

/-- C5 (amended): a private-mode dispatch to an offline target delivers the
payload to no connection; if the sender is gone too, nothing happens at
all; if the sender is registered with an open, non-full queue, exactly one
synthesized error notification is enqueued to the sender; if the sender's
queue is full, no error is enqueued — the sender's queue is closed
instead. -/
theorem C5_private_offline_amended (m : ClientManager) (msg : Message) (target : String)
    (htarget : alookup m.UserClients target = none) :
    (alookup m.UserClients msg.username = none →
       sendPrivateMessage m msg target = some (m, [])) ∧
    (∀ s cs, alookup m.UserClients msg.username = some s →
       alookup m.heap s = some cs → cs.send.closed = false →
       cs.send.msgs.length < cs.send.cap →
       sendPrivateMessage m msg target =
         some (heapSet m s { cs with send :=
           { cs.send with msgs := cs.send.msgs ++ [offlineErrorMsg target] } }, [])) ∧
    (∀ s cs, alookup m.UserClients msg.username = some s →
       alookup m.heap s = some cs → cs.send.closed = false →
       ¬ cs.send.msgs.length < cs.send.cap →
       sendPrivateMessage m msg target =
         some (heapSet m s { cs with send := { cs.send with closed := true } }, [])) := by
  refine ⟨?_, ?_, ?_⟩
  · intro hs
    simp [sendPrivateMessage, htarget, hs]
  · intro s cs hs hcs hopen hroom
    simp [sendPrivateMessage, htarget, hs, SendMessage_enqueue _ hcs hopen hroom]
  · intro s cs hs hcs hopen hfull
    simp [sendPrivateMessage, htarget, hs, SendMessage_full _ hcs hopen hfull]

/-- A private message from alice to the offline user dave. -/
def c5msg2 : Message :=
  { mtype := "private_message", content := "x", userId := 10,
    username := "alice", recipient := "dave" }

/-- Witness for the amended C5: in `c6demo`, a private message from alice
to the offline `dave` enqueues exactly the offline error to alice. -/
theorem C5_private_offline_amended_witness :
    sendPrivateMessage c6demo c5msg2 "dave" =
      some (heapSet c6demo 1
        { { newClient 10 "alice" with rooms := ["general"] } with send :=
          { ({ newClient 10 "alice" with rooms := ["general"] } : Client).send with
            msgs := ({ newClient 10 "alice" with
              rooms := ["general"] } : Client).send.msgs ++ [offlineErrorMsg "dave"] } },
        []) :=
  (C5_private_offline_amended c6demo c5msg2 "dave" (by decide)).2.1 1 _
    (by decide) (by decide) (by decide) (by decide)

/-- Register alice and bob, then fill bob's queue exactly (welcome +
online-users + 254 `room_joined` confirmations = 256 = capacity). -/
def fullBobScript : List HubOp :=
  HubOp.register 1 10 "alice" :: HubOp.register 2 11 "bob" ::
    List.replicate 254 (HubOp.joinRoom 2 "r")

/-- C2 is violated by the code: after `fullBobScript`, a local `ping`
reply (`Client.SendMessage` on the full queue) CLOSES bob's queue while
bob is still in the connection set, the username map and room `r`; the
subsequent `unregister` then attempts to close the already-closed queue
and panics.  This exhibits the failing input for the claim that a queue is
closed exactly once and only after full removal from the registry. -/
theorem C2_close_while_registered :
    ((runOps initManager fullBobScript).bind (fun m => applyOp m (HubOp.ping 2))).map
      (fun m =>
        (decide (2 ∈ m.Clients),
         alookup m.UserClients "bob",
         decide (2 ∈ membersOf m "r"),
         (alookup m.heap 2).map (fun c => c.send.closed),
         applyOp m (HubOp.unregister 2)))
    = some (true, some 2, true, some true, none) := by decide

/-- The broadcast-all dispatch used to exhibit the delivery panic. -/
def c9dispatch : BroadcastMessage :=
  { message := { mtype := "chat_message", content := "hi", userId := 10,
                 username := "alice" },
    messageType := "broadcast_all" }

/-- C9: with bob's queue exactly full and open, one more local
`SendMessage` (the 255th `room_joined` confirmation) closes the queue while
bob stays registered; a subsequent broadcast-all delivery step then panics
(send on a closed channel), i.e. the hub's delivery operation is not total
over reachable registry states. -/
theorem C9_delivery_not_total :
    (((runOps initManager fullBobScript).map (fun m =>
        (alookup m.heap 2).map (fun c =>
          (c.send.closed, decide (c.send.msgs.length < c.send.cap)))))
      = some (some (false, false))) ∧
    (((runOps initManager (fullBobScript ++ [HubOp.joinRoom 2 "r"])).map (fun m =>
        (decide (2 ∈ m.Clients),
         (alookup m.heap 2).map (fun c => c.send.closed),
         handleBroadcast m c9dispatch)))
      = some (true, some true, none)) :=
  ⟨by decide, by decide⟩

/-- C8 (amended): the full-queue teardown (`cleanupClient`) and the
transport-failure teardown (`unregisterClient` on a present client) are
identical in effect on the registry — same removal from the connection
set, the username map and every room, same closing of the departing
queue — but they are NOT identical towards the other connections:
`unregisterClient` enqueues a `user_disconnected` notification to every
remaining connection, while `cleanupClient` broadcasts nothing. -/
theorem C8_cleanup_vs_unregister (m : ClientManager) (cid : Nat) (c : Client)
    (hmem : cid ∈ m.Clients) (hc : alookup m.heap cid = some c)
    (hopen : c.send.closed = false) (hnd : m.Clients.Nodup)
    (hothers : ∀ x ∈ m.Clients, x ≠ cid → ∃ cl, alookup m.heap x = some cl ∧
       (cl.user.username ≠ c.user.username →
         cl.send.closed = false ∧ cl.send.msgs.length < cl.send.cap)) :
    ∃ mC mU att,
      cleanupClient m cid = some mC ∧
      unregisterClient m cid = some (mU, att) ∧
      mC.Clients = mU.Clients ∧ mC.UserClients = mU.UserClients ∧
      mC.Rooms = mU.Rooms ∧
      alookup mU.heap cid = alookup mC.heap cid ∧
      (∀ x ∈ m.Clients, x ≠ cid → ∀ cl, alookup m.heap x = some cl →
         alookup mC.heap x = some cl ∧
         (cl.user.username ≠ c.user.username →
           alookup mU.heap x = some { cl with send := { cl.send with msgs :=
             cl.send.msgs ++ [userDisconnectedMsg c.user] } })) := by
  set m1 : ClientManager :=
    { Clients := m.Clients.erase cid,
      UserClients := aerase m.UserClients c.user.username,
      Rooms := removeFromRooms m.Rooms cid c.rooms,
      heap := aset m.heap cid { c with send := { c.send with closed := true } } }
    with hm1
  have hclean : cleanupClient m cid = some m1 := cleanupClient_eq hc hopen
  have hframe : ∀ x, x ≠ cid → alookup m1.heap x = alookup m.heap x := by
    intro x hx
    simp [hm1, alookup_aset, hx]
  have hnd1 : m1.Clients.Nodup := List.Nodup.erase cid hnd
  obtain ⟨m2, hrun, h1, h2, h3, h4, h5, h6⟩ :=
    broadcastLoop_roomy m1.Clients m1 (userDisconnectedMsg c.user) c.user.username []
      hnd1 (by
        intro x hx
        have hx2 := (List.Nodup.mem_erase_iff hnd).mp hx
        obtain ⟨cl, hcl, hcond⟩ := hothers x hx2.2 hx2.1
        exact ⟨cl, by rw [hframe x hx2.1]; exact hcl, hcond⟩)
  have hunreg : unregisterClient m cid = some (m2,
      [] ++ List.filter (fun x => decide (usernameOf m1 x ≠ some c.user.username))
        m1.Clients) := by
    rw [unregisterClient, if_pos hmem]
    simp only [hc, chanClose_open hopen, broadcastToAll]
    exact hrun
  refine ⟨m1, m2, _, hclean, hunreg, h1.symm, h2.symm, h3.symm, ?_, ?_⟩
  · apply h5
    simp [usernameOf, hm1, alookup_aset]
  · intro x hx hxcid cl hcl
    refine ⟨by rw [hframe x hxcid]; exact hcl, ?_⟩
    intro hxname
    have hxmem : x ∈ m1.Clients := by
      simp only [hm1]
      exact (List.Nodup.mem_erase_iff hnd).mpr ⟨hxcid, hx⟩
    exact h6 x hxmem cl (by rw [hframe x hxcid]; exact hcl) hxname

/-- Registry with alice and bob registered (bob most recently). -/
def c8m : ClientManager :=
  (runOps initManager [HubOp.register 1 10 "alice", HubOp.register 2 11 "bob"]).getD
    initManager

/-- Counterexample to C8 as stated: tearing bob down via `cleanupClient`
and via `unregisterClient` has the same effect on the registry maps, but
NOT the same effect on alice: `unregisterClient` enqueues one
`user_disconnected` to alice and `cleanupClient` enqueues none, so the two
teardowns are not identical and no `user_disconnected` is broadcast on the
full-queue path. -/
theorem C8_counterexample :
    ((cleanupClient c8m 2).map (fun mC =>
      (unregisterClient c8m 2).map (fun pU =>
        (decide (mC.Clients = pU.1.Clients ∧ mC.UserClients = pU.1.UserClients ∧
                 mC.Rooms = pU.1.Rooms),
         decide (alookup mC.heap 1 = alookup pU.1.heap 1),
         (alookup pU.1.heap 1).map (fun cl =>
           (cl.send.msgs.filter (fun x => decide (x.mtype = "user_disconnected"))).length),
         (alookup mC.heap 1).map (fun cl =>
           (cl.send.msgs.filter (fun x => decide (x.mtype = "user_disconnected"))).length)))))
    = some (some (true, false, some 1, some 0)) := by decide

/-- Bob's heap cell in `c8m`. -/
def c8bob : Client := (alookup c8m.heap 2).getD (newClient 0 "")

/-- Alice's heap cell in `c8m`. -/
def c8alice : Client := (alookup c8m.heap 1).getD (newClient 0 "")

/-- Witness for the amended C8, at the concrete registry `c8m`. -/
theorem C8_cleanup_vs_unregister_witness :
    ∃ mC mU att,
      cleanupClient c8m 2 = some mC ∧
      unregisterClient c8m 2 = some (mU, att) ∧
      mC.Clients = mU.Clients ∧ mC.UserClients = mU.UserClients ∧
      mC.Rooms = mU.Rooms ∧
      alookup mU.heap 2 = alookup mC.heap 2 ∧
      (∀ x ∈ c8m.Clients, x ≠ 2 → ∀ cl, alookup c8m.heap x = some cl →
         alookup mC.heap x = some cl ∧
         (cl.user.username ≠ c8bob.user.username →
           alookup mU.heap x = some { cl with send := { cl.send with msgs :=
             cl.send.msgs ++ [userDisconnectedMsg c8bob.user] } })) :=
  C8_cleanup_vs_unregister c8m 2 c8bob (by decide) (by decide) (by decide) (by decide)
    (by
      intro x hx hne
      have hxl : x ∈ ([1, 2] : List Nat) := by
        have hcl : c8m.Clients = [1, 2] := by decide
        rwa [hcl] at hx
      rcases List.mem_cons.mp hxl with rfl | hxl
      · exact ⟨c8alice, by decide, by decide⟩
      · rcases List.mem_cons.mp hxl with rfl | hxl
        · exact absurd rfl hne
        · simp at hxl)

/-- C4: if exactly one registered connection `k` has a full (open) outbound
queue, a broadcast-all delivery still succeeds, enqueues the notification
to every other registered connection whose username is not the excluded
one, and removes only `k` from the connection set — one slow consumer never
prevents delivery to the rest and the hub loop does not fail. -/
theorem C4_broadcast_full_isolation (m : ClientManager) (k : Nat) (ck : Client)
    (msg : Message) (excl : String)
    (hnd : m.Clients.Nodup) (hk : k ∈ m.Clients)
    (hck : alookup m.heap k = some ck)
    (hopen : ck.send.closed = false) (hfull : ¬ ck.send.msgs.length < ck.send.cap)
    (hex : ck.user.username ≠ excl)
    (hothers : ∀ c ∈ m.Clients, c ≠ k → ∃ cl, alookup m.heap c = some cl ∧
       (cl.user.username ≠ excl → cl.send.closed = false ∧ cl.send.msgs.length < cl.send.cap)) :
    ∃ m2 att, broadcastToAll m msg excl = some (m2, att) ∧
      m2.Clients = m.Clients.erase k ∧
      (∀ c ∈ m.Clients, c ≠ k → ∀ cl, alookup m.heap c = some cl →
         cl.user.username ≠ excl →
         alookup m2.heap c =
           some { cl with send := { cl.send with msgs := cl.send.msgs ++ [msg] } }) := by
  obtain ⟨m2, att, hrun, h1, h2, h3⟩ :=
    broadcastLoop_onefull m.Clients m msg excl [] k ck hnd hck hopen hfull hex hothers
  exact ⟨m2, att, by rw [broadcastToAll]; exact hrun, by rw [h1, if_pos hk], h3⟩

/-- A registered client (bob) whose 256-slot queue is exactly full. -/
def c4k : Client :=
  { newClient 11 "bob" with
    send := { msgs := List.replicate 256 pongMsg, cap := 256, closed := false } }

/-- Registry with alice, a full-queue bob, and carol. -/
def c4demo : ClientManager :=
  { Clients := [1, 2, 3],
    UserClients := [("alice", 1), ("bob", 2), ("carol", 3)],
    Rooms := [],
    heap := [(1, newClient 10 "alice"), (2, c4k), (3, newClient 12 "carol")] }

/-- Witness for C4 at `c4demo`: broadcasting (excluding alice) evicts only
bob and still delivers to carol. -/
theorem C4_broadcast_full_isolation_witness :
    ∃ m2 att, broadcastToAll c4demo pongMsg "alice" = some (m2, att) ∧
      m2.Clients = c4demo.Clients.erase 2 ∧
      (∀ c ∈ c4demo.Clients, c ≠ 2 → ∀ cl, alookup c4demo.heap c = some cl →
         cl.user.username ≠ "alice" →
         alookup m2.heap c =
           some { cl with send := { cl.send with msgs := cl.send.msgs ++ [pongMsg] } }) :=
  C4_broadcast_full_isolation c4demo 2 c4k pongMsg "alice" (by decide) (by decide)
    (by decide) (by decide) (by decide) (by decide)
    (by
      intro x hx hne
      have hcl : c4demo.Clients = [1, 2, 3] := by decide
      rw [hcl] at hx
      rcases List.mem_cons.mp hx with rfl | hx
      · exact ⟨newClient 10 "alice", by decide, by decide⟩
      · rcases List.mem_cons.mp hx with rfl | hx
        · exact absurd rfl hne
        · rcases List.mem_cons.mp hx with rfl | hx
          · exact ⟨newClient 12 "carol", by decide, by decide⟩
          · simp at hx)

/-- C10: both teardowns (`unregisterClient` on a present client, and
`cleanupClient`) remove the departing client from the member set of every
room listed in its own room set, but never clear the client's own room
set — the departed heap cell keeps its entire `Rooms` list, and only its
channel state changes.  No field other than the channel state of any other
client is modified: `cleanupClient` leaves every other heap cell literally
unchanged, and `unregisterClient` at most appends to other clients'
queues (the `user_disconnected` delivery). -/
theorem C10_teardown_frame (m : ClientManager) (cid : Nat) (c : Client)
    (hc : alookup m.heap cid = some c) (hopen : c.send.closed = false)
    (hmem : cid ∈ m.Clients) (hndC : m.Clients.Nodup)
    (hndR : (akeys m.Rooms).Nodup) (hndcr : c.rooms.Nodup)
    (hndmem : ∀ p ∈ m.Rooms, (p.2 : List Nat).Nodup)
    (hothers : ∀ x ∈ m.Clients, x ≠ cid → ∃ cl, alookup m.heap x = some cl ∧
       (cl.user.username ≠ c.user.username → cl.send.closed = false)) :
    (∃ mC, cleanupClient m cid = some mC ∧
      alookup mC.heap cid = some { c with send := { c.send with closed := true } } ∧
      (∀ r ∈ c.rooms, cid ∉ membersOf mC r) ∧
      (∀ x, x ≠ cid → alookup mC.heap x = alookup m.heap x) ∧
      cid ∉ mC.Clients) ∧
    (∃ mU att, unregisterClient m cid = some (mU, att) ∧
      (∃ chU, alookup mU.heap cid = some { c with send := chU }) ∧
      (∀ r ∈ c.rooms, cid ∉ membersOf mU r) ∧
      (∀ x cl, x ≠ cid → alookup m.heap x = some cl →
         ∃ ch2, alookup mU.heap x = some { cl with send := ch2 }) ∧
      cid ∉ mU.Clients) := by
  set m1 : ClientManager :=
    { Clients := m.Clients.erase cid,
      UserClients := aerase m.UserClients c.user.username,
      Rooms := removeFromRooms m.Rooms cid c.rooms,
      heap := aset m.heap cid { c with send := { c.send with closed := true } } }
    with hm1
  have hclean : cleanupClient m cid = some m1 := cleanupClient_eq hc hopen
  have hcidcell : alookup m1.heap cid =
      some { c with send := { c.send with closed := true } } := by
    simp [hm1, alookup_aset]
  have hframe : ∀ x, x ≠ cid → alookup m1.heap x = alookup m.heap x := by
    intro x hx
    simp [hm1, alookup_aset, hx]
  have hrooms1 : ∀ r ∈ c.rooms, cid ∉ membersOf m1 r := by
    intro r hr
    exact not_mem_membersOf_removeFromRooms hndR hndcr hndmem hr
  have hnotmem1 : cid ∉ m1.Clients := by
    intro hcontra
    exact absurd ((List.Nodup.mem_erase_iff hndC).mp hcontra).1 (by simp)
  refine ⟨⟨m1, hclean, hcidcell, hrooms1, hframe, hnotmem1⟩, ?_⟩
  obtain ⟨m2, hrun, husame, hexfr⟩ :=
    broadcastLoop_att m1.Clients m1 (userDisconnectedMsg c.user) c.user.username []
      (List.Nodup.erase cid hndC) (by
        intro x hx
        have hx2 := (List.Nodup.mem_erase_iff hndC).mp hx
        obtain ⟨cl, hcl, hcond⟩ := hothers x hx2.2 hx2.1
        exact ⟨cl, by rw [hframe x hx2.1]; exact hcl, hcond⟩)
  have hunreg : unregisterClient m cid = some (m2,
      [] ++ List.filter (fun x => decide (usernameOf m1 x ≠ some c.user.username))
        m1.Clients) := by
    rw [unregisterClient, if_pos hmem]
    simp only [hc, chanClose_open hopen, broadcastToAll]
    exact hrun
  obtain ⟨hmono1, hmono2, hmono3, _⟩ :=
    broadcastLoop_mono m1.Clients m1 (userDisconnectedMsg c.user) c.user.username []
      m2 _ (akeys_removeFromRooms_nodup hndR) hrun
  refine ⟨m2, _, hunreg, ?_, ?_, ?_, ?_⟩
  · obtain ⟨ch, hch⟩ := hmono3 cid _ hcidcell
    exact ⟨ch, hch⟩
  · intro r hr hcontra
    exact hrooms1 r hr (hmono2 r cid hcontra)
  · intro x cl hx hcl
    exact hmono3 x cl (by rw [hframe x hx]; exact hcl)
  · intro hcontra
    exact hnotmem1 (hmono1 cid hcontra)

/-- Witness for C10, tearing alice (client 1, a member of `general`) out of
`c6demo`. -/
theorem C10_teardown_frame_witness :
    (∃ mC, cleanupClient c6demo 1 = some mC ∧
      alookup mC.heap 1 = some { { newClient 10 "alice" with rooms := ["general"] } with
        send := { ({ newClient 10 "alice" with
          rooms := ["general"] } : Client).send with closed := true } } ∧
      (∀ r ∈ ({ newClient 10 "alice" with rooms := ["general"] } : Client).rooms,
         1 ∉ membersOf mC r) ∧
      (∀ x, x ≠ 1 → alookup mC.heap x = alookup c6demo.heap x) ∧
      1 ∉ mC.Clients) ∧
    (∃ mU att, unregisterClient c6demo 1 = some (mU, att) ∧
      (∃ chU, alookup mU.heap 1 =
        some { { newClient 10 "alice" with rooms := ["general"] } with send := chU }) ∧
      (∀ r ∈ ({ newClient 10 "alice" with rooms := ["general"] } : Client).rooms,
         1 ∉ membersOf mU r) ∧
      (∀ x cl, x ≠ 1 → alookup c6demo.heap x = some cl →
         ∃ ch2, alookup mU.heap x = some { cl with send := ch2 }) ∧
      1 ∉ mU.Clients) :=
  C10_teardown_frame c6demo 1 { newClient 10 "alice" with rooms := ["general"] }
    (by decide) (by decide) (by decide) (by decide) (by decide) (by decide)
    (by intro p hp; fin_cases hp; decide)
    (by
      intro x hx hne
      have hcl : c6demo.Clients = [1, 2, 3] := by decide
      rw [hcl] at hx
      rcases List.mem_cons.mp hx with rfl | hx
      · exact absurd rfl hne
      · rcases List.mem_cons.mp hx with rfl | hx
        · exact ⟨{ newClient 11 "bob" with rooms := ["general"] }, by decide, by decide⟩
        · rcases List.mem_cons.mp hx with rfl | hx
          · exact ⟨newClient 12 "carol", by decide, by decide⟩
          · simp at hx)

/-! ## Room-membership well-formedness (spec invariants 1 and 4) -/

/-- Well-formedness of the room bookkeeping: room keys are unique, every
room entry is a nonempty duplicate-free member set, every registered
client dereferences and carries a duplicate-free room set, and both
directions of the membership mirror hold. -/
def RoomWF (m : ClientManager) : Prop :=
  (akeys m.Rooms).Nodup ∧
  (∀ p ∈ m.Rooms, (p.2 : List Nat) ≠ [] ∧ (p.2 : List Nat).Nodup) ∧
  (∀ c ∈ m.Clients, (alookup m.heap c).isSome = true ∧ (roomsOf m c).Nodup) ∧
  (∀ c ∈ m.Clients, ∀ r ∈ roomsOf m c, c ∈ membersOf m r) ∧
  (∀ p ∈ m.Rooms, ∀ x ∈ (p.2 : List Nat), x ∈ m.Clients → p.1 ∈ roomsOf m x)

instance RoomWF.decidable (m : ClientManager) : Decidable (RoomWF m) := by
  unfold RoomWF
  infer_instance

/-- The claim-facing mirror: for every registered connection and every
room id whatsoever, membership in the hub room map is equivalent to
membership in the connection's own room set. -/
def MirrorInv (m : ClientManager) : Prop :=
  ∀ c ∈ m.Clients, ∀ r : String, c ∈ membersOf m r ↔ r ∈ roomsOf m c

theorem MirrorInv_of_RoomWF {m : ClientManager} (h : RoomWF m) : MirrorInv m := by
  intro c hc r
  constructor
  · intro hmem
    unfold membersOf at hmem
    cases hr : alookup m.Rooms r with
    | none => rw [hr] at hmem; simp at hmem
    | some mem =>
      rw [hr] at hmem
      simp only [Option.getD_some] at hmem
      exact h.2.2.2.2 (r, mem) (alookup_mem hr) c hmem hc
  · intro hro
    exact h.2.2.2.1 c hc r hro

/-- `RoomWF` only depends on the client set, the room map, the heap
domain and the room sets of the heap cells. -/
theorem RoomWF_frame {m m2 : ClientManager}
    (hC : m2.Clients = m.Clients) (hR : m2.Rooms = m.Rooms)
    (hro : ∀ x, roomsOf m2 x = roomsOf m x)
    (hhs : ∀ x, (alookup m2.heap x).isSome = (alookup m.heap x).isSome)
    (h : RoomWF m) : RoomWF m2 := by
  have hmem : ∀ r, membersOf m2 r = membersOf m r := by
    intro r; unfold membersOf; rw [hR]
  obtain ⟨h1, h2, h3, h4, h5⟩ := h
  refine ⟨by rw [hR]; exact h1, by rw [hR]; exact h2, ?_, ?_, ?_⟩
  · intro c hc
    rw [hC] at hc
    rw [hhs, hro]
    exact h3 c hc
  · intro c hc r hr
    rw [hC] at hc
    rw [hro] at hr
    rw [hmem]
    exact h4 c hc r hr
  · intro p hp x hx hxc
    rw [hR] at hp
    rw [hC] at hxc
    rw [hro]
    exact h5 p hp x hx hxc

/-- `handleJoinRoom` preserves `RoomWF`. -/
theorem handleJoinRoom_RoomWF {m m2 : ClientManager} {cid : Nat} {rid : String}
    {ds : List BroadcastMessage}
    (hwf : RoomWF m) (hcm : cid ∈ m.Clients)
    (h : handleJoinRoom m cid rid = some (m2, ds)) : RoomWF m2 := by
  cases hc : alookup m.heap cid with
  | none =>
    simp only [handleJoinRoom, hc, Option.some.injEq, Prod.mk.injEq] at h
    obtain ⟨h1, _⟩ := h
    subst h1
    exact hwf
  | some c =>
    by_cases hr : rid = ""
    · simp only [handleJoinRoom, hc, if_pos hr] at h
      cases hse : SendError m cid "Room ID cannot be empty" with
      | none => rw [hse] at h; cases h
      | some ms =>
        rw [hse] at h
        injection h with h
        injection h with h1 h2
        subst h1
        obtain ⟨hC, _, hR, _, _, hro, hhs, _⟩ := SendMessage_frame hse
        exact RoomWF_frame hC hR hro hhs hwf
    · have hrooms : roomsOf m cid = c.rooms := by simp [roomsOf, hc]
      set mid : ClientManager :=
        { Clients := m.Clients,
          UserClients := m.UserClients,
          Rooms := aset m.Rooms rid (insertSet (membersOf m rid) cid),
          heap := aset m.heap cid { c with rooms := insertSet c.rooms rid } }
        with hmid
      have hmidwf : RoomWF mid := by
        have hroomsOf : ∀ x, roomsOf mid x =
            if x = cid then insertSet c.rooms rid else roomsOf m x := by
          intro x
          by_cases hx : x = cid
          · simp [hmid, roomsOf, alookup_aset, hx]
          · simp [hmid, roomsOf, alookup_aset, hx]
        have hmembersOf : ∀ r, membersOf mid r =
            if r = rid then insertSet (membersOf m rid) cid else membersOf m r := by
          intro r
          by_cases hx : r = rid
          · simp [hmid, membersOf, alookup_aset, hx]
          · simp [hmid, membersOf, alookup_aset, hx]
        have hmemnd : (membersOf m rid).Nodup := by
          unfold membersOf
          cases hrr : alookup m.Rooms rid with
          | none => simp
          | some mem =>
            simp only [Option.getD_some]
            exact (hwf.2.1 (rid, mem) (alookup_mem hrr)).2
        refine ⟨?_, ?_, ?_, ?_, ?_⟩
        · exact nodup_akeys_aset _ hwf.1
        · intro p hp
          rcases mem_aset hp with rfl | hp2
          · exact ⟨List.ne_nil_of_mem (mem_insertSet.mpr (Or.inl rfl)),
              nodup_insertSet cid hmemnd⟩
          · exact hwf.2.1 p hp2
        · intro c2 hc2
          constructor
          · by_cases hx : c2 = cid
            · subst hx; simp [hmid, alookup_aset]
            · simp only [hmid, alookup_aset, if_neg hx]
              exact (hwf.2.2.1 c2 hc2).1
          · rw [hroomsOf]
            by_cases hx : c2 = cid
            · subst hx
              rw [if_pos rfl]
              refine nodup_insertSet rid ?_
              rw [← hrooms]
              exact (hwf.2.2.1 c2 hc2).2
            · rw [if_neg hx]
              exact (hwf.2.2.1 c2 hc2).2
        · intro c2 hc2 r hrm
          rw [hroomsOf] at hrm
          rw [hmembersOf]
          by_cases hx : c2 = cid
          · subst hx
            rw [if_pos rfl] at hrm
            rcases mem_insertSet.mp hrm with rfl | hrm2
            · rw [if_pos rfl]
              exact mem_insertSet.mpr (Or.inl rfl)
            · by_cases hrrid : r = rid
              · subst hrrid
                rw [if_pos rfl]
                exact mem_insertSet.mpr (Or.inl rfl)
              · rw [if_neg hrrid]
                exact hwf.2.2.2.1 c2 hc2 r (by rw [hrooms]; exact hrm2)
          · rw [if_neg hx] at hrm
            by_cases hrrid : r = rid
            · subst hrrid
              rw [if_pos rfl]
              exact mem_insertSet.mpr (Or.inr (hwf.2.2.2.1 c2 hc2 r hrm))
            · rw [if_neg hrrid]
              exact hwf.2.2.2.1 c2 hc2 r hrm
        · intro p hp x hx hxc
          rw [hroomsOf]
          by_cases hxcid : x = cid
          · subst hxcid
            rw [if_pos rfl]
            rcases mem_aset hp with rfl | hp2
            · exact mem_insertSet.mpr (Or.inl rfl)
            · exact mem_insertSet.mpr
                (Or.inr (by rw [← hrooms]; exact hwf.2.2.2.2 p hp2 x hx hxc))
          · rw [if_neg hxcid]
            rcases mem_aset hp with rfl | hp2
            · rcases mem_insertSet.mp hx with rfl | hx2
              · exact absurd rfl hxcid
              · unfold membersOf at hx2
                cases hrr : alookup m.Rooms rid with
                | none => rw [hrr] at hx2; simp at hx2
                | some mem =>
                  rw [hrr] at hx2
                  simp only [Option.getD_some] at hx2
                  exact hwf.2.2.2.2 (rid, mem) (alookup_mem hrr) x hx2 hxc
            · exact hwf.2.2.2.2 p hp2 x hx hxc
      simp only [handleJoinRoom, hc, if_neg hr] at h
      cases hsm : SendMessage mid cid (roomJoinedMsg rid) with
      | none =>
        rw [show (heapSet
            { m with Rooms := aset m.Rooms rid (insertSet (membersOf m rid) cid) } cid
            { c with rooms := insertSet c.rooms rid }) = mid from rfl] at h
        rw [hsm] at h
        cases h
      | some m3 =>
        rw [show (heapSet
            { m with Rooms := aset m.Rooms rid (insertSet (membersOf m rid) cid) } cid
            { c with rooms := insertSet c.rooms rid }) = mid from rfl] at h
        rw [hsm] at h
        simp only [Option.some.injEq, Prod.mk.injEq] at h
        obtain ⟨h1, _⟩ := h
        subst h1
        obtain ⟨hC, _, hR, _, _, hro, hhs, _⟩ := SendMessage_frame hsm
        exact RoomWF_frame hC hR hro hhs hmidwf

/-- `handleLeaveRoom` preserves `RoomWF`. -/
theorem handleLeaveRoom_RoomWF {m m2 : ClientManager} {cid : Nat} {rid : String}
    {ds : List BroadcastMessage}
    (hwf : RoomWF m) (hcm : cid ∈ m.Clients)
    (h : handleLeaveRoom m cid rid = some (m2, ds)) : RoomWF m2 := by
  cases hc : alookup m.heap cid with
  | none =>
    simp only [handleLeaveRoom, hc, Option.some.injEq, Prod.mk.injEq] at h
    obtain ⟨h1, _⟩ := h
    subst h1
    exact hwf
  | some c =>
    by_cases hr : rid = ""
    · simp only [handleLeaveRoom, hc, if_pos hr] at h
      cases hse : SendError m cid "Room ID cannot be empty" with
      | none => rw [hse] at h; cases h
      | some ms =>
        rw [hse] at h
        injection h with h
        injection h with h1 h2
        subst h1
        obtain ⟨hC, _, hR, _, _, hro, hhs, _⟩ := SendMessage_frame hse
        exact RoomWF_frame hC hR hro hhs hwf
    · have hrooms : roomsOf m cid = c.rooms := by simp [roomsOf, hc]
      have hcnd : c.rooms.Nodup := by
        rw [← hrooms]; exact (hwf.2.2.1 cid hcm).2
      set newRooms : List (String × List Nat) :=
        (match alookup m.Rooms rid with
          | none => m.Rooms
          | some members =>
            if (members.erase cid).length = 0 then aerase m.Rooms rid
            else aset m.Rooms rid (members.erase cid))
        with hnr
      set mid : ClientManager :=
        { Clients := m.Clients,
          UserClients := m.UserClients,
          Rooms := newRooms,
          heap := aset m.heap cid { c with rooms := c.rooms.erase rid } }
        with hmid
      have hroomsOf : ∀ x, roomsOf mid x =
          if x = cid then c.rooms.erase rid else roomsOf m x := by
        intro x
        by_cases hx : x = cid
        · simp [hmid, roomsOf, alookup_aset, hx]
        · simp [hmid, roomsOf, alookup_aset, hx]
      have hmidwf : RoomWF mid := by
        have hbase : ∀ c2 ∈ mid.Clients,
            (alookup mid.heap c2).isSome = true ∧ (roomsOf mid c2).Nodup := by
          intro c2 hc2
          constructor
          · by_cases hx : c2 = cid
            · subst hx; simp [hmid, alookup_aset]
            · simp only [hmid, alookup_aset, if_neg hx]
              exact (hwf.2.2.1 c2 hc2).1
          · rw [hroomsOf]
            by_cases hx : c2 = cid
            · rw [if_pos hx]
              exact List.Nodup.erase rid hcnd
            · rw [if_neg hx]
              exact (hwf.2.2.1 c2 hc2).2
        cases hrr : alookup m.Rooms rid with
        | none =>
          have hRrw : mid.Rooms = m.Rooms := by simp [hmid, hnr, hrr]
          have hmembersOf : ∀ r, membersOf mid r = membersOf m r := by
            intro r; unfold membersOf; rw [hRrw]
          refine ⟨by rw [hRrw]; exact hwf.1, by rw [hRrw]; exact hwf.2.1, hbase, ?_, ?_⟩
          · intro c2 hc2 r hrm
            rw [hroomsOf] at hrm
            rw [hmembersOf]
            by_cases hx : c2 = cid
            · rw [if_pos hx] at hrm
              subst hx
              exact hwf.2.2.2.1 c2 hc2 r
                (by rw [hrooms]; exact List.mem_of_mem_erase hrm)
            · rw [if_neg hx] at hrm
              exact hwf.2.2.2.1 c2 hc2 r hrm
          · intro p hp x hx hxc
            rw [hRrw] at hp
            rw [hroomsOf]
            by_cases hxcid : x = cid
            · subst hxcid
              rw [if_pos rfl]
              have hprid : p.1 ≠ rid := by
                intro hh
                have : (alookup m.Rooms p.1).isSome = true :=
                  alookup_isSome_mem_akeys.mpr (List.mem_map_of_mem Prod.fst hp)
                rw [hh, hrr] at this
                simp at this
              refine (List.mem_erase_of_ne ?_).mpr ?_
              · intro hh; exact hprid hh
              · rw [← hrooms]; exact hwf.2.2.2.2 p hp x hx hxc
            · rw [if_neg hxcid]
              exact hwf.2.2.2.2 p hp x hx hxc
        | some members =>
          have hmemmem : (rid, members) ∈ m.Rooms := alookup_mem hrr
          have hmemnd : members.Nodup := (hwf.2.1 (rid, members) hmemmem).2
          by_cases hprune : (members.erase cid).length = 0
          · have hRrw : mid.Rooms = aerase m.Rooms rid := by simp [hmid, hnr, hrr, hprune]
            have hndmid : (akeys mid.Rooms).Nodup := by
              rw [hRrw]; exact nodup_akeys_aerase rid hwf.1
            have hmembersOf : ∀ r, r ≠ rid → membersOf mid r = membersOf m r := by
              intro r hrne
              unfold membersOf
              rw [hRrw, alookup_aerase_ne hrne]
            refine ⟨hndmid, ?_, hbase, ?_, ?_⟩
            · intro p hp
              rw [hRrw] at hp
              exact hwf.2.1 p (mem_of_mem_aerase hp)
            · intro c2 hc2 r hrm
              rw [hroomsOf] at hrm
              by_cases hx : c2 = cid
              · rw [if_pos hx] at hrm
                subst hx
                have hrne : r ≠ rid := by
                  intro hh
                  subst hh
                  exact absurd ((List.Nodup.mem_erase_iff hcnd).mp hrm).1 (by simp)
                rw [hmembersOf r hrne]
                exact hwf.2.2.2.1 c2 hc2 r
                  (by rw [hrooms]; exact List.mem_of_mem_erase hrm)
              · rw [if_neg hx] at hrm
                have hrne : r ≠ rid := by
                  intro hh
                  subst hh
                  have hc2mem : c2 ∈ members := by
                    have := hwf.2.2.2.1 c2 hc2 r hrm
                    unfold membersOf at this
                    rwa [hrr, Option.getD_some] at this
                  have : c2 ∈ members.erase cid :=
                    (List.mem_erase_of_ne hx).mpr hc2mem
                  rw [List.length_eq_zero] at hprune
                  rw [hprune] at this
                  simp at this
                rw [hmembersOf r hrne]
                exact hwf.2.2.2.1 c2 hc2 r hrm
            · intro p hp x hx hxc
              rw [hRrw] at hp
              have hprid : p.1 ≠ rid := by
                intro hh
                have hlk := alookup_of_mem_nodup
                  (by rw [← hRrw]; exact hndmid) hp
                rw [hh, alookup_aerase m.Rooms rid rid hwf.1, if_pos rfl] at hlk
                cases hlk
              rw [hroomsOf]
              by_cases hxcid : x = cid
              · subst hxcid
                rw [if_pos rfl]
                refine (List.mem_erase_of_ne (fun hh => hprid hh)).mpr ?_
                rw [← hrooms]
                exact hwf.2.2.2.2 p (mem_of_mem_aerase hp) x hx hxc
              · rw [if_neg hxcid]
                exact hwf.2.2.2.2 p (mem_of_mem_aerase hp) x hx hxc
          · have hRrw : mid.Rooms = aset m.Rooms rid (members.erase cid) := by
              simp [hmid, hnr, hrr, hprune]
            have hndmid : (akeys mid.Rooms).Nodup := by
              rw [hRrw]; exact nodup_akeys_aset _ hwf.1
            have hmembersOf : ∀ r, membersOf mid r =
                if r = rid then members.erase cid else membersOf m r := by
              intro r
              unfold membersOf
              rw [hRrw, alookup_aset]
              by_cases hx : r = rid
              · simp [hx]
              · simp [hx, membersOf]
            refine ⟨hndmid, ?_, hbase, ?_, ?_⟩
            · intro p hp
              rw [hRrw] at hp
              rcases mem_aset hp with rfl | hp2
              · refine ⟨?_, List.Nodup.erase cid hmemnd⟩
                intro hh
                apply hprune
                have hh2 : members.erase cid = [] := hh
                rw [hh2]
                rfl
              · exact hwf.2.1 p hp2
            · intro c2 hc2 r hrm
              rw [hroomsOf] at hrm
              rw [hmembersOf]
              by_cases hx : c2 = cid
              · rw [if_pos hx] at hrm
                subst hx
                have hrne : r ≠ rid := by
                  intro hh
                  subst hh
                  exact absurd ((List.Nodup.mem_erase_iff hcnd).mp hrm).1 (by simp)
                rw [if_neg hrne]
                exact hwf.2.2.2.1 c2 hc2 r
                  (by rw [hrooms]; exact List.mem_of_mem_erase hrm)
              · rw [if_neg hx] at hrm
                by_cases hrne : r = rid
                · subst hrne
                  rw [if_pos rfl]
                  refine (List.mem_erase_of_ne hx).mpr ?_
                  have := hwf.2.2.2.1 c2 hc2 r hrm
                  unfold membersOf at this
                  rwa [hrr, Option.getD_some] at this
                · rw [if_neg hrne]
                  exact hwf.2.2.2.1 c2 hc2 r hrm
            · intro p hp x hx hxc
              rw [hRrw] at hp
              rw [hroomsOf]
              by_cases hprid : p.1 = rid
              · have hlk := alookup_of_mem_nodup (by rw [← hRrw]; exact hndmid) hp
                rw [hprid] at hlk
                rw [alookup_aset, if_pos rfl] at hlk
                injection hlk with hlk
                have hxne : x ≠ cid := by
                  intro hh
                  subst hh
                  rw [← hlk] at hx
                  exact absurd ((List.Nodup.mem_erase_iff hmemnd).mp hx).1 (by simp)
                rw [if_neg hxne, hprid]
                have hxmem : x ∈ members := by
                  rw [← hlk] at hx
                  exact List.mem_of_mem_erase hx
                exact hwf.2.2.2.2 (rid, members) hmemmem x hxmem hxc
              · rcases mem_aset hp with heq | hp2
                · exact absurd (congrArg Prod.fst heq) hprid
                · by_cases hxcid : x = cid
                  · subst hxcid
                    rw [if_pos rfl]
                    refine (List.mem_erase_of_ne (fun hh => hprid hh)).mpr ?_
                    rw [← hrooms]
                    exact hwf.2.2.2.2 p hp2 x hx hxc
                  · rw [if_neg hxcid]
                    exact hwf.2.2.2.2 p hp2 x hx hxc
      simp only [handleLeaveRoom, hc, if_neg hr] at h
      cases hsm : SendMessage mid cid (roomLeftMsg rid) with
      | none =>
        rw [show (heapSet { m with Rooms := newRooms } cid
            { c with rooms := c.rooms.erase rid }) = mid from rfl] at h
        rw [hsm] at h
        cases h
      | some m3 =>
        rw [show (heapSet { m with Rooms := newRooms } cid
            { c with rooms := c.rooms.erase rid }) = mid from rfl] at h
        rw [hsm] at h
        simp only [Option.some.injEq, Prod.mk.injEq] at h
        obtain ⟨h1, _⟩ := h
        subst h1
        obtain ⟨hC, _, hR, _, _, hro, hhs, _⟩ := SendMessage_frame hsm
        exact RoomWF_frame hC hR hro hhs hmidwf

/-- C3: immediately after any processed `join_room` or `leave_room` (from a
well-formed state, by a registered connection), for every registered
connection C and every room id R, C is in the hub room map's member set
for R iff R is in C's own room set, and every room id present in the room
map has a non-empty member set (an emptied room is deleted). -/
theorem C3_join_leave_mirror (m mJ mL : ClientManager) (cid : Nat) (rid : String)
    (dsJ dsL : List BroadcastMessage)
    (hwf : RoomWF m) (hcm : cid ∈ m.Clients)
    (hJ : handleJoinRoom m cid rid = some (mJ, dsJ))
    (hL : handleLeaveRoom m cid rid = some (mL, dsL)) :
    (MirrorInv mJ ∧ (∀ p ∈ mJ.Rooms, (p.2 : List Nat) ≠ []) ∧ RoomWF mJ) ∧
    (MirrorInv mL ∧ (∀ p ∈ mL.Rooms, (p.2 : List Nat) ≠ []) ∧ RoomWF mL) := by
  have hj := handleJoinRoom_RoomWF hwf hcm hJ
  have hl := handleLeaveRoom_RoomWF hwf hcm hL
  exact ⟨⟨MirrorInv_of_RoomWF hj, fun p hp => (hj.2.1 p hp).1, hj⟩,
         ⟨MirrorInv_of_RoomWF hl, fun p hp => (hl.2.1 p hp).1, hl⟩⟩

/-- Carol (3) joining room `general` in `c6demo`. -/
def c3join : ClientManager × List BroadcastMessage :=
  (handleJoinRoom c6demo 3 "general").getD (c6demo, [])

/-- Carol (3) leaving room `general` in `c6demo` (she is not a member). -/
def c3leave : ClientManager × List BroadcastMessage :=
  (handleLeaveRoom c6demo 3 "general").getD (c6demo, [])

/-- Witness for C3 at `c6demo`. -/
theorem C3_join_leave_mirror_witness :
    (MirrorInv c3join.1 ∧ (∀ p ∈ c3join.1.Rooms, (p.2 : List Nat) ≠ []) ∧
       RoomWF c3join.1) ∧
    (MirrorInv c3leave.1 ∧ (∀ p ∈ c3leave.1.Rooms, (p.2 : List Nat) ≠ []) ∧
       RoomWF c3leave.1) :=
  C3_join_leave_mirror c6demo c3join.1 c3leave.1 3 "general" c3join.2 c3leave.2
    (by decide) (by decide) (by decide) (by decide)

/-! ## The registration invariant (spec invariant 2) -/

theorem alookup_none_aerase {α β : Type} [DecidableEq α] {l : List (α × β)} (k : α)
    {u : α} (h : alookup l u = none) : alookup (aerase l k) u = none := by
  apply alookup_none_of_not_mem_akeys
  intro hmem
  have h2 : u ∈ akeys l := List.Sublist.mem hmem (akeys_aerase_sublist l k)
  have h3 := alookup_isSome_mem_akeys.mpr h2
  rw [h] at h3
  cases h3

/-- The hub-loop invariant used for claim C1: duplicate-free client set and
maps, every registered client dereferences, the username map is sound and
complete for the registered clients, and every registered client's
channel is open. -/
structure Inv1 (m : ClientManager) : Prop where
  ndClients : m.Clients.Nodup
  ndUsers : (akeys m.UserClients).Nodup
  ndHeap : (akeys m.heap).Nodup
  heapDef : ∀ c ∈ m.Clients, (alookup m.heap c).isSome = true
  usersSound : ∀ p ∈ m.UserClients, p.2 ∈ m.Clients ∧ usernameOf m p.2 = some p.1
  usersComplete : ∀ c ∈ m.Clients, ∀ u, usernameOf m c = some u →
    alookup m.UserClients u = some c
  openChans : ∀ c ∈ m.Clients, ∀ cl, alookup m.heap c = some cl → cl.send.closed = false

/-- Updating a heap cell without changing its username preserves `Inv1`
(provided the new channel is open whenever the client is registered). -/
theorem Inv1_heapSet {m : ClientManager} {cid : Nat} {c c2 : Client}
    (hinv : Inv1 m) (hc : alookup m.heap cid = some c)
    (huser : c2.user.username = c.user.username)
    (hopen : cid ∈ m.Clients → c2.send.closed = false) :
    Inv1 (heapSet m cid c2) := by
  have husame : ∀ x, usernameOf (heapSet m cid c2) x = usernameOf m x := by
    intro x
    rw [usernameOf_heapSet]
    by_cases hx : x = cid
    · subst hx
      simp [usernameOf, hc, huser]
    · simp [hx]
  have hkeys : ∀ x, (alookup (heapSet m cid c2).heap x).isSome =
      (alookup m.heap x).isSome := by
    intro x
    rw [heapSet_lookup]
    by_cases hx : x = cid
    · subst hx; simp [hc]
    · simp [hx]
  refine ⟨hinv.ndClients, hinv.ndUsers, ?_, ?_, ?_, ?_, ?_⟩
  · have : cid ∈ akeys m.heap := alookup_isSome_mem_akeys.mp (by simp [hc])
    simpa [heapSet, akeys_aset_of_mem c2 this] using hinv.ndHeap
  · intro x hx
    rw [hkeys]
    exact hinv.heapDef x hx
  · intro p hp
    rw [husame]
    exact hinv.usersSound p hp
  · intro x hx u hu
    rw [husame] at hu
    exact hinv.usersComplete x hx u hu
  · intro x hx cl hcl
    rw [heapSet_lookup] at hcl
    by_cases hxc : x = cid
    · rw [if_pos hxc] at hcl
      cases hcl
      exact hopen (hxc ▸ hx)
    · rw [if_neg hxc] at hcl
      exact hinv.openChans x hx cl hcl

/-- Removing a registered client (the shape shared by `cleanupClient`,
`unregisterClient` and the full-queue branch of the delivery loop)
preserves `Inv1`, for any room map and any replacement channel. -/
theorem Inv1_cleanup {m : ClientManager} {cid : Nat} {c : Client}
    (rms : List (String × List Nat)) (ch : SendChan)
    (hinv : Inv1 m) (hmem : cid ∈ m.Clients) (hc : alookup m.heap cid = some c) :
    Inv1 { Clients := m.Clients.erase cid,
           UserClients := aerase m.UserClients c.user.username,
           Rooms := rms,
           heap := aset m.heap cid { c with send := ch } } := by
  set m2 : ClientManager :=
    { Clients := m.Clients.erase cid,
      UserClients := aerase m.UserClients c.user.username,
      Rooms := rms,
      heap := aset m.heap cid { c with send := ch } }
    with hm2
  have husame : ∀ x, usernameOf m2 x = usernameOf m x := by
    intro x
    by_cases hx : x = cid
    · subst hx
      simp [hm2, usernameOf, alookup_aset, hc]
    · simp [hm2, usernameOf, alookup_aset, hx]
  have hucid : usernameOf m cid = some c.user.username := by simp [usernameOf, hc]
  refine ⟨List.Nodup.erase cid hinv.ndClients, nodup_akeys_aerase _ hinv.ndUsers, ?_,
    ?_, ?_, ?_, ?_⟩
  · have : cid ∈ akeys m.heap := alookup_isSome_mem_akeys.mp (by simp [hc])
    simpa [hm2, akeys_aset_of_mem _ this] using hinv.ndHeap
  · intro x hx
    have hx2 := (List.Nodup.mem_erase_iff hinv.ndClients).mp hx
    simp only [hm2, alookup_aset, if_neg hx2.1]
    exact hinv.heapDef x hx2.2
  · intro p hp
    have hpm := mem_of_mem_aerase hp
    obtain ⟨hp1, hp2⟩ := hinv.usersSound p hpm
    have hpne : p.2 ≠ cid := by
      intro hh
      subst hh
      have hkey : p.1 = c.user.username := by
        rw [hucid] at hp2
        injection hp2 with hp2
        exact hp2.symm
      have hlk := alookup_of_mem_nodup (nodup_akeys_aerase _ hinv.ndUsers) hp
      rw [hkey, alookup_aerase _ _ _ hinv.ndUsers, if_pos rfl] at hlk
      cases hlk
    exact ⟨(List.mem_erase_of_ne hpne).mpr hp1, by rw [husame]; exact hp2⟩
  · intro x hx u hu
    have hx2 := (List.Nodup.mem_erase_iff hinv.ndClients).mp hx
    rw [husame] at hu
    have hune : u ≠ c.user.username := by
      intro hh
      subst hh
      have h1 := hinv.usersComplete x hx2.2 _ hu
      have h2 := hinv.usersComplete cid hmem _ hucid
      rw [h1] at h2
      injection h2 with h2
      exact hx2.1 h2
    rw [alookup_aerase _ _ _ hinv.ndUsers, if_neg hune]
    exact hinv.usersComplete x hx2.2 u hu
  · intro x hx cl hcl
    have hx2 := (List.Nodup.mem_erase_iff hinv.ndClients).mp hx
    simp only [hm2, alookup_aset, if_neg hx2.1] at hcl
    exact hinv.openChans x hx2.2 cl hcl

/-- Allocating a fresh client struct preserves `Inv1`, and a fresh pointer
cannot already be registered. -/
theorem Inv1_alloc {m : ClientManager} {cid : Nat} (cl : Client)
    (hinv : Inv1 m) (hfresh : alookup m.heap cid = none) :
    Inv1 (heapSet m cid cl) ∧ cid ∉ m.Clients := by
  have hnotmem : cid ∉ m.Clients := by
    intro hcontra
    have := hinv.heapDef cid hcontra
    rw [hfresh] at this
    cases this
  have husame : ∀ x, x ≠ cid → usernameOf (heapSet m cid cl) x = usernameOf m x := by
    intro x hx
    rw [usernameOf_heapSet, if_neg hx]
  refine ⟨⟨hinv.ndClients, hinv.ndUsers, ?_, ?_, ?_, ?_, ?_⟩, hnotmem⟩
  · have hnk : cid ∉ akeys m.heap := by
      intro hcontra
      have h3 := alookup_isSome_mem_akeys.mpr hcontra
      rw [hfresh] at h3
      cases h3
    simp only [heapSet, akeys_aset_of_not_mem cl hnk]
    simp [List.nodup_append, hnk, hinv.ndHeap]
  · intro x hx
    have hxne : x ≠ cid := fun hh => hnotmem (hh ▸ hx)
    rw [heapSet_lookup, if_neg hxne]
    exact hinv.heapDef x hx
  · intro p hp
    obtain ⟨hp1, hp2⟩ := hinv.usersSound p hp
    exact ⟨hp1, by rw [husame p.2 (fun hh => hnotmem (hh ▸ hp1))]; exact hp2⟩
  · intro x hx u hu
    have hxne : x ≠ cid := fun hh => hnotmem (hh ▸ hx)
    rw [husame x hxne] at hu
    exact hinv.usersComplete x hx u hu
  · intro x hx cl2 hcl
    have hxne : x ≠ cid := fun hh => hnotmem (hh ▸ hx)
    rw [heapSet_lookup, if_neg hxne] at hcl
    exact hinv.openChans x hx cl2 hcl

/-- Adding a freshly allocated client to `Clients` and `UserClients`
preserves `Inv1`, provided its username has no live entry. -/
theorem Inv1_addClient {m1 : ClientManager} {cid uid : Nat} {uname : String}
    (hinv : Inv1 m1) (hfresh : cid ∉ m1.Clients)
    (hc : alookup m1.heap cid = some (newClient uid uname))
    (huname : alookup m1.UserClients uname = none) :
    Inv1 { m1 with Clients := insertSet m1.Clients cid,
                   UserClients := aset m1.UserClients uname cid } := by
  set m2 : ClientManager :=
    { m1 with Clients := insertSet m1.Clients cid,
              UserClients := aset m1.UserClients uname cid }
    with hm2
  have husame : ∀ x, usernameOf m2 x = usernameOf m1 x := fun x => rfl
  have hucid : usernameOf m1 cid = some uname := by simp [usernameOf, hc, newClient]
  refine ⟨nodup_insertSet cid hinv.ndClients, nodup_akeys_aset cid hinv.ndUsers, hinv.ndHeap,
    ?_, ?_, ?_, ?_⟩
  · intro x hx
    rcases mem_insertSet.mp hx with rfl | hx2
    · simp [hm2, hc]
    · exact hinv.heapDef x hx2
  · intro p hp
    rcases mem_aset hp with rfl | hp2
    · exact ⟨mem_insertSet.mpr (Or.inl rfl), by rw [husame]; exact hucid⟩
    · obtain ⟨hp1, hp2'⟩ := hinv.usersSound p hp2
      exact ⟨mem_insertSet.mpr (Or.inr hp1), by rw [husame]; exact hp2'⟩
  · intro x hx u hu
    rw [husame] at hu
    rcases mem_insertSet.mp hx with rfl | hx2
    · rw [hucid] at hu
      injection hu with hu
      subst hu
      simp [hm2, alookup_aset]
    · have hune : u ≠ uname := by
        intro hh
        subst hh
        have hcon := hinv.usersComplete x hx2 u hu
        rw [huname] at hcon
        cases hcon
      simp only [hm2, alookup_aset, if_neg hune]
      exact hinv.usersComplete x hx2 u hu
  · intro x hx cl hcl
    rcases mem_insertSet.mp hx with rfl | hx2
    · simp only [hm2] at hcl
      rw [hc] at hcl
      cases hcl
      rfl
    · exact hinv.openChans x hx2 cl hcl

/-- One delivery step on a registered target preserves `Inv1`, together
with the frame facts the registration proof needs. -/
theorem deliverStep_Inv1 {m : ClientManager} {cid : Nat} {msg : Message} {excl : String}
    {acc : List Nat} {m2 : ClientManager} {att : List Nat}
    (hinv : Inv1 m) (hmem : cid ∈ m.Clients)
    (h : deliverStep m cid msg excl acc = some (m2, att)) :
    Inv1 m2 ∧ (∀ x ∈ m2.Clients, x ∈ m.Clients) ∧
    (∀ x ∈ m.Clients, x ≠ cid → x ∈ m2.Clients) ∧
    (∀ u, alookup m.UserClients u = none → alookup m2.UserClients u = none) ∧
    (alookup m2.UserClients excl = alookup m.UserClients excl) ∧
    (∀ x, x ≠ cid → alookup m2.heap x = alookup m.heap x) ∧
    (∀ x ∈ m.Clients, usernameOf m x = some excl → x ∈ m2.Clients) ∧
    (∀ x, usernameOf m x = some excl → alookup m2.heap x = alookup m.heap x) ∧
    (∀ x, usernameOf m2 x = usernameOf m x) := by
  have hid : m = m2 →
      Inv1 m2 ∧ (∀ x ∈ m2.Clients, x ∈ m.Clients) ∧
      (∀ x ∈ m.Clients, x ≠ cid → x ∈ m2.Clients) ∧
      (∀ u, alookup m.UserClients u = none → alookup m2.UserClients u = none) ∧
      (alookup m2.UserClients excl = alookup m.UserClients excl) ∧
      (∀ x, x ≠ cid → alookup m2.heap x = alookup m.heap x) ∧
      (∀ x ∈ m.Clients, usernameOf m x = some excl → x ∈ m2.Clients) ∧
      (∀ x, usernameOf m x = some excl → alookup m2.heap x = alookup m.heap x) ∧
      (∀ x, usernameOf m2 x = usernameOf m x) := by
    rintro rfl
    exact ⟨hinv, fun x hx => hx, fun x hx _ => hx, fun u hu => hu, rfl,
      fun x _ => rfl, fun x hx _ => hx, fun x _ => rfl, fun x => rfl⟩
  cases hc : alookup m.heap cid with
  | none =>
    rw [deliverStep_skip_none msg excl acc hc] at h
    cases h
    exact hid rfl
  | some c =>
    have hopen := hinv.openChans cid hmem c hc
    by_cases hx : c.user.username = excl
    · rw [← hx, deliverStep_skip_excl msg acc hc] at h
      cases h
      exact hid rfl
    · by_cases hroom : c.send.msgs.length < c.send.cap
      · rw [deliverStep_enqueue msg acc hc hx hopen hroom] at h
        cases h
        have husame : ∀ x, usernameOf (heapSet m cid
            { c with send := { c.send with msgs := c.send.msgs ++ [msg] } }) x =
            usernameOf m x := by
          intro x
          rw [usernameOf_heapSet]
          by_cases hxc : x = cid
          · subst hxc; simp [usernameOf, hc]
          · simp [hxc]
        refine ⟨Inv1_heapSet hinv hc rfl (fun _ => hopen), fun x hx2 => hx2,
          fun x hx2 _ => hx2, fun u hu => hu, rfl, ?_, fun x hx2 _ => hx2, ?_, husame⟩
        · intro x hxc
          rw [heapSet_lookup, if_neg hxc]
        · intro x hux
          have hxc : x ≠ cid := by
            intro hh
            subst hh
            rw [show usernameOf m x = some c.user.username from by simp [usernameOf, hc]]
              at hux
            exact hx (by injection hux)
          rw [heapSet_lookup, if_neg hxc]
      · rw [deliverStep_full msg acc hc hx hopen hroom] at h
        cases h
        have husame : ∀ x, usernameOf
            { Clients := m.Clients.erase cid,
              UserClients := aerase m.UserClients c.user.username,
              Rooms := removeFromRooms m.Rooms cid c.rooms,
              heap := aset m.heap cid { c with send := { c.send with closed := true } } }
            x = usernameOf m x := by
          intro x
          by_cases hxc : x = cid
          · subst hxc; simp [usernameOf, alookup_aset, hc]
          · simp [usernameOf, alookup_aset, hxc]
        refine ⟨Inv1_cleanup _ _ hinv hmem hc, ?_, ?_, ?_, ?_, ?_, ?_, ?_, husame⟩
        · intro x hx2
          exact (List.erase_sublist cid m.Clients).mem hx2
        · intro x hx2 hxc
          exact (List.mem_erase_of_ne hxc).mpr hx2
        · intro u hu
          exact alookup_none_aerase _ hu
        · exact alookup_aerase_ne (fun hh => hx hh.symm)
        · intro x hxc
          simp [alookup_aset, hxc]
        · intro x hx2 hux
          refine (List.mem_erase_of_ne ?_).mpr hx2
          intro hh
          subst hh
          rw [show usernameOf m x = some c.user.username from by simp [usernameOf, hc]]
            at hux
          exact hx (by injection hux)
        · intro x hux
          have hxc : x ≠ cid := by
            intro hh
            subst hh
            rw [show usernameOf m x = some c.user.username from by simp [usernameOf, hc]]
              at hux
            exact hx (by injection hux)
          simp [alookup_aset, hxc]

/-- The delivery loop preserves `Inv1` when the snapshot is drawn from the
registered clients, with the frame facts the registration proof needs. -/
theorem broadcastLoop_Inv1 (snapshot : List Nat) :
    ∀ (m : ClientManager) (msg : Message) (excl : String) (acc : List Nat)
      (m2 : ClientManager) (att : List Nat),
    Inv1 m → snapshot.Nodup → (∀ c ∈ snapshot, c ∈ m.Clients) →
    broadcastLoop m snapshot msg excl acc = some (m2, att) →
    Inv1 m2 ∧ (∀ x ∈ m2.Clients, x ∈ m.Clients) ∧
    (∀ u, alookup m.UserClients u = none → alookup m2.UserClients u = none) ∧
    (alookup m2.UserClients excl = alookup m.UserClients excl) ∧
    (∀ x, x ∉ snapshot → alookup m2.heap x = alookup m.heap x) ∧
    (∀ x ∈ m.Clients, usernameOf m x = some excl → x ∈ m2.Clients) ∧
    (∀ x, usernameOf m x = some excl → alookup m2.heap x = alookup m.heap x) ∧
    (∀ x, usernameOf m2 x = usernameOf m x) := by
  induction snapshot with
  | nil =>
    intro m msg excl acc m2 att hinv _ _ h
    rw [broadcastLoop] at h
    cases h
    exact ⟨hinv, fun x hx => hx, fun u hu => hu, rfl, fun x _ => rfl,
      fun x hx _ => hx, fun x _ => rfl, fun x => rfl⟩
  | cons c rest ih =>
    intro m msg excl acc m2 att hinv hnd hsub h
    simp only [List.nodup_cons] at hnd
    rw [broadcastLoop] at h
    cases hstep : deliverStep m c msg excl acc with
    | none => rw [hstep] at h; cases h
    | some p =>
      obtain ⟨mm, acc2⟩ := p
      rw [hstep] at h
      obtain ⟨s1, s2, s3, s4, s5, s6, s7, s8, s9⟩ :=
        deliverStep_Inv1 hinv (hsub c (List.mem_cons_self _ _)) hstep
      obtain ⟨t1, t2, t3, t4, t5, t6, t7, t8⟩ :=
        ih mm msg excl acc2 m2 att s1 hnd.2 (by
          intro x hxr
          exact s3 x (hsub x (List.mem_cons_of_mem _ hxr)) (fun hh => hnd.1 (hh ▸ hxr))) h
      refine ⟨t1, fun x hx => s2 x (t2 x hx), fun u hu => t3 u (s4 u hu),
        t4.trans s5, ?_, ?_, ?_, fun x => (t8 x).trans (s9 x)⟩
      · intro x hxn
        rw [t5 x (fun hh => hxn (List.mem_cons_of_mem _ hh)),
          s6 x (fun hh => hxn (hh ▸ List.mem_cons_self _ _))]
      · intro x hx2 hux
        exact t6 x (s7 x hx2 hux) (by rw [s9 x]; exact hux)
      · intro x hux
        rw [t7 x (by rw [s9 x]; exact hux), s8 x hux]

/-- `unregisterClient` preserves `Inv1`, with the facts the registration
proof needs about the departed username entry and the untouched cells. -/
theorem unregisterClient_Inv1 {m : ClientManager} {cid : Nat} {m2 : ClientManager}
    {att : List Nat}
    (hinv : Inv1 m) (h : unregisterClient m cid = some (m2, att)) :
    Inv1 m2 ∧ (∀ x ∈ m2.Clients, x ∈ m.Clients) ∧
    (∀ u, alookup m.UserClients u = none → alookup m2.UserClients u = none) ∧
    cid ∉ m2.Clients ∧
    (cid ∈ m.Clients → ∀ u, usernameOf m cid = some u →
       alookup m2.UserClients u = none) ∧
    (∀ x, x ∉ m.Clients → alookup m2.heap x = alookup m.heap x) ∧
    (∀ x, usernameOf m2 x = usernameOf m x) := by
  by_cases hmem : cid ∈ m.Clients
  · cases hc : alookup m.heap cid with
    | none =>
      have := hinv.heapDef cid hmem
      rw [hc] at this
      cases this
    | some c =>
      have hopen := hinv.openChans cid hmem c hc
      simp only [unregisterClient, if_pos hmem, hc, chanClose_open hopen,
        broadcastToAll] at h
      set m1 : ClientManager :=
        { Clients := m.Clients.erase cid,
          UserClients := aerase m.UserClients c.user.username,
          Rooms := removeFromRooms m.Rooms cid c.rooms,
          heap := aset m.heap cid { c with send := { c.send with closed := true } } }
        with hm1
      have hinv1 : Inv1 m1 := Inv1_cleanup _ _ hinv hmem hc
      have husame1 : ∀ x, usernameOf m1 x = usernameOf m x := by
        intro x
        by_cases hxc : x = cid
        · subst hxc; simp [hm1, usernameOf, alookup_aset, hc]
        · simp [hm1, usernameOf, alookup_aset, hxc]
      obtain ⟨t1, t2, t3, _, t5, _, _, t8⟩ :=
        broadcastLoop_Inv1 m1.Clients m1 (userDisconnectedMsg c.user) c.user.username []
          m2 att hinv1 hinv1.ndClients (fun x hx => hx) h
      refine ⟨t1, ?_, ?_, ?_, ?_, ?_, fun x => (t8 x).trans (husame1 x)⟩
      · intro x hx
        exact (List.erase_sublist cid m.Clients).mem (t2 x hx)
      · intro u hu
        exact t3 u (alookup_none_aerase _ hu)
      · intro hcontra
        have := t2 cid hcontra
        exact absurd ((List.Nodup.mem_erase_iff hinv.ndClients).mp this).1 (by simp)
      · intro _ u hu
        have hueq : u = c.user.username := by
          rw [show usernameOf m cid = some c.user.username from by simp [usernameOf, hc]]
            at hu
          injection hu with hh
          exact hh.symm
        subst hueq
        apply t3
        rw [hm1]
        rw [alookup_aerase _ _ _ hinv.ndUsers, if_pos rfl]
      · intro x hxn
        have hxc : x ≠ cid := fun hh => hxn (hh ▸ hmem)
        have hxs : x ∉ m1.Clients := by
          intro hcontra
          exact hxn ((List.erase_sublist cid m.Clients).mem hcontra)
        rw [t5 x hxs]
        simp [hm1, alookup_aset, hxc]
  · rw [unregisterClient_absent hmem] at h
    injection h with h
    injection h with h1 h2
    subst h1
    exact ⟨hinv, fun x hx => hx, fun u hu => hu, hmem, fun hcontra => absurd hcontra hmem,
      fun x _ => rfl, fun x => rfl⟩

/-- `forceDisconnectClient` on a registered client preserves `Inv1`. -/
theorem forceDisconnectClient_Inv1 {m : ClientManager} {cid : Nat} {m2 : ClientManager}
    {att : List Nat}
    (hinv : Inv1 m) (hmem : cid ∈ m.Clients)
    (h : forceDisconnectClient m cid = some (m2, att)) :
    Inv1 m2 ∧ (∀ x ∈ m2.Clients, x ∈ m.Clients) ∧
    (∀ u, alookup m.UserClients u = none → alookup m2.UserClients u = none) ∧
    cid ∉ m2.Clients ∧
    (∀ u, usernameOf m cid = some u → alookup m2.UserClients u = none) ∧
    (∀ x, x ∉ m.Clients → alookup m2.heap x = alookup m.heap x) ∧
    (∀ x, usernameOf m2 x = usernameOf m x) := by
  cases hc : alookup m.heap cid with
  | none =>
    have := hinv.heapDef cid hmem
    rw [hc] at this
    cases this
  | some c =>
    simp only [forceDisconnectClient, hc] at h
    set ms : ClientManager := heapSet m cid { c with socketOpen := false } with hms
    have hinvs : Inv1 ms :=
      Inv1_heapSet hinv hc rfl (fun _ => hinv.openChans cid hmem c hc)
    have husames : ∀ x, usernameOf ms x = usernameOf m x := by
      intro x
      rw [usernameOf_heapSet]
      by_cases hxc : x = cid
      · subst hxc; simp [usernameOf, hc]
      · simp [hxc]
    have hmems : cid ∈ ms.Clients := hmem
    obtain ⟨t1, t2, t3, t4, t5, t6, t7⟩ := unregisterClient_Inv1 hinvs h
    refine ⟨t1, t2, t3, t4, ?_, ?_, fun x => (t7 x).trans (husames x)⟩
    · intro u hu
      exact t5 hmems u (by rw [husames cid]; exact hu)
    · intro x hxn
      have hxc : x ≠ cid := fun hh => hxn (hh ▸ hmem)
      rw [t6 x hxn]
      simp [hms, heapSet_lookup, hxc]

/-- The post-eviction phase of registration preserves `Inv1` and installs
the username binding. -/
theorem registerTail_Inv1 {m1 : ClientManager} {cid uid : Nat} {uname : String}
    {m2 : ClientManager} {att : List Nat}
    (hinv1 : Inv1 m1) (hfresh1 : cid ∉ m1.Clients)
    (hc1 : alookup m1.heap cid = some (newClient uid uname))
    (hu1 : alookup m1.UserClients uname = none)
    (h : registerTail m1 cid (newClient uid uname).user = some (m2, att)) :
    Inv1 m2 ∧ alookup m2.UserClients uname = some cid ∧ cid ∈ m2.Clients ∧
    (∀ old, old ≠ cid → old ∉ m1.Clients → old ∉ m2.Clients) := by
  have huu : (newClient uid uname).user.username = uname := rfl
  set mAdd : ClientManager :=
    { m1 with Clients := insertSet m1.Clients cid,
              UserClients := aset m1.UserClients uname cid }
    with hmAdd
  have hinvA : Inv1 mAdd := Inv1_addClient hinv1 hfresh1 hc1 hu1
  have hcA : alookup mAdd.heap cid = some (newClient uid uname) := hc1
  set wc : Client :=
    { newClient uid uname with send :=
      { (newClient uid uname).send with
        msgs := (newClient uid uname).send.msgs ++ [welcomeMsg] } }
    with hwc
  have hwm : SendMessage mAdd cid welcomeMsg = some (heapSet mAdd cid wc) :=
    SendMessage_enqueue welcomeMsg hcA rfl (by simp [newClient])
  set m3 : ClientManager := heapSet mAdd cid wc with hm3
  have hinv3 : Inv1 m3 := Inv1_heapSet hinvA hcA rfl (fun _ => rfl)
  have hc3 : alookup m3.heap cid = some wc := by simp [hm3, heapSet_lookup]
  have hu3 : alookup m3.UserClients uname = some cid := by
    simp [hm3, heapSet, hmAdd, alookup_aset]
  have hcm3 : cid ∈ m3.Clients := mem_insertSet.mpr (Or.inl rfl)
  have huser3 : usernameOf m3 cid = some uname := by
    simp [usernameOf, hc3, hwc, newClient]
  rw [registerTail] at h
  simp only [huu] at h
  rw [← hmAdd] at h
  simp only [hwm] at h
  cases hbr : broadcastToAll m3 (userConnectedMsg (newClient uid uname).user) uname with
  | none =>
    simp only [hbr] at h
    cases h
  | some p =>
    obtain ⟨m4, att4⟩ := p
    simp only [hbr] at h
    rw [broadcastToAll] at hbr
    obtain ⟨t1, t2, t3, t4, _, t6, t7, _⟩ :=
      broadcastLoop_Inv1 m3.Clients m3 (userConnectedMsg (newClient uid uname).user)
        uname [] m4 att4 hinv3 hinv3.ndClients (fun x hx => hx) hbr
    have hu4 : alookup m4.UserClients uname = some cid := by
      rw [t4]
      exact hu3
    have hcm4 : cid ∈ m4.Clients := t6 cid hcm3 huser3
    have hc4 : alookup m4.heap cid = some wc := by
      rw [t7 cid huser3]
      exact hc3
    have hol : sendOnlineUsersList m4 cid =
        some (heapSet m4 cid { wc with send := { wc.send with msgs :=
          wc.send.msgs ++ [onlineUsersMsg m4 wc.user.username] } }) := by
      rw [sendOnlineUsersList, hc4]
      exact SendMessage_enqueue _ hc4 rfl (by simp [hwc, newClient])
    rw [hol] at h
    injection h with h
    injection h with h1 h2
    subst h1
    set m5 : ClientManager := heapSet m4 cid { wc with send := { wc.send with msgs :=
      wc.send.msgs ++ [onlineUsersMsg m4 wc.user.username] } } with hm5
    have hinv5 : Inv1 m5 := Inv1_heapSet t1 hc4 rfl (fun _ => rfl)
    refine ⟨hinv5, ?_, hcm4, ?_⟩
    · simp only [hm5, heapSet]
      exact hu4
    · intro old hone hold hcontra
      have h4mem : old ∈ m4.Clients := hcontra
      have h3mem : old ∈ m3.Clients := t2 old h4mem
      rcases mem_insertSet.mp h3mem with rfl | hmem1
      · exact hone rfl
      · exact hold hmem1

/-- `registerClient` (for a freshly allocated client struct) preserves
`Inv1`; afterwards the username maps to the new client, the new client is
registered, and any evicted previous connection for that username is no
longer registered. -/
theorem registerClient_Inv1 {m : ClientManager} {cid uid : Nat} {uname : String}
    {m2 : ClientManager} {att : List Nat}
    (hinv : Inv1 m) (hfresh : cid ∉ m.Clients)
    (hc : alookup m.heap cid = some (newClient uid uname))
    (h : registerClient m cid = some (m2, att)) :
    Inv1 m2 ∧ alookup m2.UserClients uname = some cid ∧ cid ∈ m2.Clients ∧
    (∀ old, alookup m.UserClients uname = some old → old ∉ m2.Clients) := by
  simp only [registerClient, hc] at h
  simp only [show ((newClient uid uname).user.username) = uname from rfl] at h
  cases hu : alookup m.UserClients uname with
  | none =>
    simp only [hu] at h
    obtain ⟨k1, k2, k3, k4⟩ := registerTail_Inv1 hinv hfresh hc hu h
    exact ⟨k1, k2, k3, fun old hold => by cases hold⟩
  | some existing =>
    simp only [hu] at h
    have hexmem : existing ∈ m.Clients :=
      (hinv.usersSound (uname, existing) (alookup_mem hu)).1
    have husere : usernameOf m existing = some uname :=
      (hinv.usersSound (uname, existing) (alookup_mem hu)).2
    have hexne : existing ≠ cid := fun hh => hfresh (hh ▸ hexmem)
    cases hfd : forceDisconnectClient m existing with
    | none =>
      simp only [hfd] at h
      simp at h
    | some pfd =>
      obtain ⟨m1, att1⟩ := pfd
      simp only [hfd] at h
      obtain ⟨f1, f2, f3, f4, f5, f6, f7⟩ := forceDisconnectClient_Inv1 hinv hexmem hfd
      have hc1 : alookup m1.heap cid = some (newClient uid uname) := by
        rw [f6 cid hfresh]
        exact hc
      have hu1 : alookup m1.UserClients uname = none := f5 uname husere
      have hfresh1 : cid ∉ m1.Clients := fun hcontra => hfresh (f2 cid hcontra)
      obtain ⟨k1, k2, k3, k4⟩ := registerTail_Inv1 f1 hfresh1 hc1 hu1 h
      refine ⟨k1, k2, k3, ?_⟩
      intro old hold
      injection hold with hold
      subst hold
      exact k4 existing hexne f4

/-- Every hub command preserves `Inv1`. -/
theorem applyCmd_Inv1 {m m2 : ClientManager} {cmd : HubCmd}
    (hinv : Inv1 m) (h : applyCmd m cmd = some m2) : Inv1 m2 := by
  cases cmd with
  | register cid uid uname =>
    simp only [applyCmd] at h
    by_cases hfresh : (alookup m.heap cid).isSome = true
    · rw [if_pos hfresh] at h
      cases h
    · rw [if_neg hfresh] at h
      have hnone : alookup m.heap cid = none := by
        cases hl : alookup m.heap cid with
        | none => rfl
        | some c => rw [hl] at hfresh; simp at hfresh
      obtain ⟨hinvI, hnotmem⟩ := Inv1_alloc (newClient uid uname) hinv hnone
      cases hr : registerClient (heapSet m cid (newClient uid uname)) cid with
      | none => rw [hr] at h; cases h
      | some pr =>
        obtain ⟨m2r, attr⟩ := pr
        rw [hr] at h
        injection h with h
        subst h
        have hcI : alookup (heapSet m cid (newClient uid uname)).heap cid =
            some (newClient uid uname) := by simp [heapSet_lookup]
        exact (registerClient_Inv1 hinvI hnotmem hcI hr).1
  | unregister cid =>
    simp only [applyCmd] at h
    cases hr : unregisterClient m cid with
    | none => rw [hr] at h; cases h
    | some pr =>
      obtain ⟨m2r, attr⟩ := pr
      rw [hr] at h
      injection h with h
      subst h
      exact (unregisterClient_Inv1 hinv hr).1

/-- Running any sequence of hub commands preserves `Inv1`. -/
theorem runCmds_Inv1 {cmds : List HubCmd} :
    ∀ {m m2 : ClientManager}, Inv1 m → runCmds m cmds = some m2 → Inv1 m2 := by
  induction cmds with
  | nil =>
    intro m m2 hinv h
    rw [runCmds] at h
    cases h
    exact hinv
  | cons cmd rest ih =>
    intro m m2 hinv h
    rw [runCmds] at h
    cases hstep : applyCmd m cmd with
    | none => rw [hstep] at h; cases h
    | some mm =>
      rw [hstep] at h
      exact ih (applyCmd_Inv1 hinv hstep) h

/-- The empty hub satisfies the invariant. -/
theorem Inv1_init : Inv1 initManager := by
  refine ⟨?_, ?_, ?_, ?_, ?_, ?_, ?_⟩ <;> simp [initManager, akeys]

/-- A duplicate-free list on which a predicate identifies at most one
element satisfies it at most once. -/
theorem countP_le_one_of_unique {l : List Nat} {p : Nat → Bool}
    (hnd : l.Nodup) (huniq : ∀ a ∈ l, ∀ b ∈ l, p a = true → p b = true → a = b) :
    l.countP p ≤ 1 := by
  induction l with
  | nil => simp [List.countP_nil]
  | cons a rest ih =>
    simp only [List.nodup_cons] at hnd
    by_cases hpa : p a = true
    · rw [List.countP_cons_of_pos p _ hpa]
      have hzero : rest.countP p = 0 := by
        rw [List.countP_eq_zero]
        intro b hb hpb
        have := huniq a (List.mem_cons_self _ _) b (List.mem_cons_of_mem _ hb) hpa hpb
        exact absurd (this ▸ hb) hnd.1
      rw [hzero]
    · rw [List.countP_cons_of_neg p _ hpa]
      refine le_trans (ih hnd.2 ?_) (by norm_num)
      intro x hx y hy hpx hpy
      exact huniq x (List.mem_cons_of_mem _ hx) y (List.mem_cons_of_mem _ hy) hpx hpy

/-- C1: over every sequence of register/unregister commands processed by
the hub from the empty state, at most one live connection per username
exists; the online-users view never repeats a username; and a register
whose username already has a live connection force-evicts it — afterwards
the online-users query returns that username exactly once and the old
connection is no longer registered. -/
theorem C1_username_uniqueness (cmds : List HubCmd) (m : ClientManager)
    (h : runCmds initManager cmds = some m) :
    (∀ u : String, m.Clients.countP (fun c => decide (usernameOf m c = some u)) ≤ 1) ∧
    (GetOnlineUsers m).Nodup ∧
    (∀ cid uid uname m2, applyCmd m (HubCmd.register cid uid uname) = some m2 →
       (GetOnlineUsers m2).count uname = 1 ∧
       (∀ old, alookup m.UserClients uname = some old → old ∉ m2.Clients)) := by
  have hinv : Inv1 m := runCmds_Inv1 Inv1_init h
  refine ⟨?_, hinv.ndUsers, ?_⟩
  · intro u
    refine countP_le_one_of_unique hinv.ndClients ?_
    intro a ha b hb hpa hpb
    have ha2 := of_decide_eq_true hpa
    have hb2 := of_decide_eq_true hpb
    have h1 := hinv.usersComplete a ha u ha2
    have h2 := hinv.usersComplete b hb u hb2
    rw [h1] at h2
    injection h2
  · intro cid uid uname m2 h2
    simp only [applyCmd] at h2
    by_cases hfresh : (alookup m.heap cid).isSome = true
    · rw [if_pos hfresh] at h2
      cases h2
    · rw [if_neg hfresh] at h2
      have hnone : alookup m.heap cid = none := by
        cases hl : alookup m.heap cid with
        | none => rfl
        | some c => rw [hl] at hfresh; simp at hfresh
      obtain ⟨hinvI, hnotmem⟩ := Inv1_alloc (newClient uid uname) hinv hnone
      cases hr : registerClient (heapSet m cid (newClient uid uname)) cid with
      | none => rw [hr] at h2; cases h2
      | some pr =>
        obtain ⟨m2r, attr⟩ := pr
        rw [hr] at h2
        injection h2 with h2
        subst h2
        have hcI : alookup (heapSet m cid (newClient uid uname)).heap cid =
            some (newClient uid uname) := by simp [heapSet_lookup]
        obtain ⟨k1, k2, k3, k4⟩ := registerClient_Inv1 hinvI hnotmem hcI hr
        constructor
        · refine List.count_eq_one_of_mem k1.ndUsers ?_
          exact alookup_isSome_mem_akeys.mp (by simp [k2])
        · intro old hold
          exact k4 old hold
  
/-- Alice logging in twice in a row. -/
def c1cmds : List HubCmd :=
  [HubCmd.register 1 10 "alice", HubCmd.register 2 11 "alice"]

/-- The hub state after `c1cmds`. -/
def c1m : ClientManager := (runCmds initManager c1cmds).getD initManager

/-- Witness for C1 at `c1cmds`: the uniqueness facts hold in the concrete
state reached after a duplicate login. -/
theorem C1_username_uniqueness_witness :
    (∀ u : String, c1m.Clients.countP (fun c => decide (usernameOf c1m c = some u)) ≤ 1) ∧
    (GetOnlineUsers c1m).Nodup ∧
    (∀ cid uid uname m2, applyCmd c1m (HubCmd.register cid uid uname) = some m2 →
       (GetOnlineUsers m2).count uname = 1 ∧
       (∀ old, alookup c1m.UserClients uname = some old → old ∉ m2.Clients)) :=
  C1_username_uniqueness c1cmds c1m (by decide)

end LiveChatter
